import Mathlib

/-!
Verification of the Sudoku solver in `src/SudokuSolver.cc` (class `SudokuSolver`).

The C++ class keeps a 9x9 `problemMatrix` together with three 9x9 boolean tag
tables `tagRow`, `tagCol`, `tagBlk`.  We embed that state as four `List (List _)`
fields.  Reads out of range default to `0` / `false` and writes out of range are
no-ops, exactly like `List.getD` / `List.set`; the solver only ever touches
in-range indices, which the theorems track through `Wf2` hypotheses (the C++
arrays are fixed 9x9, so well-formedness is implicit in the source types).

The two potentially non-terminating loops of the source (the `while (true)` of
`solveLogical` and the recursion of `solveBacktrack`) are embedded with an
explicit fuel parameter so that every definition is a computable structural
recursion; theorems below show the fuel used by the top-level entry points is
sufficient (the backtracking recursion nests at most 83 calls deep, and the
logical loop iterates at most once per empty cell).
-/

namespace Sudoku

set_option maxRecDepth 5000

/-- Read a cell of a two-dimensional list, defaulting to `d` out of range. -/

def get2 {α : Type} (m : List (List α)) (i j : Nat) (d : α) : α :=
  (m.getD i []).getD j d

/-- Write a cell of a two-dimensional list (no-op out of range, like `List.set`). -/

def set2 {α : Type} (m : List (List α)) (i j : Nat) (v : α) : List (List α) :=
  m.set i ((m.getD i []).set j v)

/-- `problemMatrix[i][j]` (0 = empty cell). -/

def getCell (m : List (List Nat)) (i j : Nat) : Nat := get2 m i j 0

/-- Assignment `problemMatrix[i][j] = v`. -/

def setCell (m : List (List Nat)) (i j : Nat) (v : Nat) : List (List Nat) :=
  set2 m i j v

/-- Read one of the boolean tag tables. -/

def getTag (t : List (List Bool)) (a b : Nat) : Bool := get2 t a b false

/-- Write one of the boolean tag tables. -/

def setTag (t : List (List Bool)) (a b : Nat) (v : Bool) : List (List Bool) :=
  set2 t a b v

/-- Block index `(i/BLK)*BLK + j/BLK` with `BLK = 3` (SudokuSolver.cc:135). -/

def blk (i j : Nat) : Nat := (i / 3) * 3 + j / 3

/-- The mutable state of the `SudokuSolver` class: `problemMatrix`, `tagRow`,
`tagCol`, `tagBlk` (SudokuSolver.cc:56-59). -/

structure SState where
  mat : List (List Nat)
  tagRow : List (List Bool)
  tagCol : List (List Bool)
  tagBlk : List (List Bool)
deriving DecidableEq

/-- `checkValid(i, j, c)` (SudokuSolver.cc:129-138): the digit `c` may be put at
`(i,j)` iff none of the three tags for it is set.  Note the source decrements
`c` first and indexes `tagCol[c][j]`, i.e. the column table is indexed
digit-first. -/

def checkValid (s : SState) (i j c : Nat) : Bool :=
  let c' := c - 1
  !(getTag s.tagRow i c') && !(getTag s.tagCol c' j) && !(getTag s.tagBlk (blk i j) c')

/-- `assignTag(i, j, n)` (SudokuSolver.cc:144-151): set the three tags of digit
`n` at `(i,j)`; no-op for `n = 0`. -/

def assignTag (s : SState) (i j n : Nat) : SState :=
  if n = 0 then s else
    let n' := n - 1
    { s with tagRow := setTag s.tagRow i n' true,
             tagCol := setTag s.tagCol n' j true,
             tagBlk := setTag s.tagBlk (blk i j) n' true }

/-- `resetTag(i, j, n)` (SudokuSolver.cc:159-166): clear the three tags of digit
`n` at `(i,j)`; no-op for `n = 0`. -/

def resetTag (s : SState) (i j n : Nat) : SState :=
  if n = 0 then s else
    let n' := n - 1
    { s with tagRow := setTag s.tagRow i n' false,
             tagCol := setTag s.tagCol n' j false,
             tagBlk := setTag s.tagBlk (blk i j) n' false }

/-- Commit a value into a cell: `proMat[i][j] = val; assignTag(i, j, val)`
(SudokuSolver.cc:302-303 and 215-216). -/

def assignCell (s : SState) (i j v : Nat) : SState :=
  assignTag { s with mat := setCell s.mat i j v } i j v

/-- All 81 cell coordinates in the scan order of the source's double loops
(row index outer, column index inner). -/

def allCells : List (Nat × Nat) :=
  (List.range 9).flatMap (fun i => (List.range 9).map (fun j => (i, j)))

/-- `fillTags()` (SudokuSolver.cc:117-121): seed the tags from every cell of the
matrix. -/

def fillTags (s : SState) : SState :=
  allCells.foldl (fun t rc => assignTag t rc.1 rc.2 (getCell t.mat rc.1 rc.2)) s

/-- The constructor's input normalisation (SudokuSolver.cc:66-74): start from an
all-zero matrix and copy every input value that lies in 1..9.  The caller's
matrix holds C++ `int`s, embedded as `Int`. -/

def buildMat (input : List (List Int)) : List (List Nat) :=
  (List.range 9).map (fun j => (List.range 9).map (fun k =>
    let v := (input.getD j []).getD k 0
    if v < 1 ∨ v > 9 then 0 else v.toNat))

/-- The state after `initTag`, `initPuzzle` and the constructor's copy loop
(SudokuSolver.cc:61-75): normalised matrix, all tags false. -/

def initState (input : List (List Int)) : SState :=
  { mat := buildMat input,
    tagRow := List.replicate 9 (List.replicate 9 false),
    tagCol := List.replicate 9 (List.replicate 9 false),
    tagBlk := List.replicate 9 (List.replicate 9 false) }

/-- The state right after the constructor ran `initTag`, `initPuzzle`, the copy
loop and `fillTags` (SudokuSolver.cc:61-75). -/

def buildState (input : List (List Int)) : SState :=
  fillTags (initState input)

/-! ### The logical deduction pass (`solveLogical`, SudokuSolver.cc:187-272) -/

/-- One counting loop of `solveLogical`: walk the unit's cells, skip filled
ones, and for each empty cell accepting digit `l` record it and bump `cnt`
(SudokuSolver.cc:197-213 etc.).  The source's `break` once `cnt > 1` only
short-circuits the counting; it cannot change whether `cnt == 1` holds at the
end, nor which cell is recorded in that case, so the fold is exact on both. -/

def countAccept (s : SState) (cells : List (Nat × Nat)) (l : Nat) : Nat × Nat × Nat :=
  cells.foldl
    (fun acc rc =>
      if getCell s.mat rc.1 rc.2 > 0 then acc
      else if checkValid s rc.1 rc.2 l then (acc.1 + 1, rc.1, rc.2) else acc)
    (0, 0, 0)

/-- One `(unit, digit)` step of a scan: if exactly one empty cell of the unit
accepts `l`, commit `l` there and raise `flagValueSet`
(SudokuSolver.cc:214-218, 238-242, 262-266). -/

def scanStep (cells : List (Nat × Nat)) (p : SState × Bool) (l : Nat) : SState × Bool :=
  let r := countAccept p.1 cells l
  if r.1 = 1 then (assignCell p.1 r.2.1 r.2.2 l, true) else p

/-- The cells of block `k`, in the nesting order of SudokuSolver.cc:197-198. -/

def blockCells (k : Nat) : List (Nat × Nat) :=
  (List.range 3).flatMap (fun a => (List.range 3).map (fun b =>
    ((k / 3) * 3 + a, (k % 3) * 3 + b)))

/-- The cells `(i, 0..8)` scanned by the middle loop of `solveLogical`
(SudokuSolver.cc:222-244, which fixes `i` and walks `problemMatrix[i][j]`). -/

def rowUnitCells (i : Nat) : List (Nat × Nat) :=
  (List.range 9).map (fun j => (i, j))

/-- The cells `(0..8, i)` scanned by the last loop of `solveLogical`
(SudokuSolver.cc:246-268, which fixes `i` and walks `problemMatrix[j][i]`). -/

def colUnitCells (i : Nat) : List (Nat × Nat) :=
  (List.range 9).map (fun j => (j, i))

/-- Digits tried by the block scan: `for (l = 1; l < NUM+1; l++)`
(SudokuSolver.cc:194), i.e. 1..9. -/

def digitsAll : List Nat := [1, 2, 3, 4, 5, 6, 7, 8, 9]

/-- Digits tried by the middle and last scans: `for (l = 1; l < NUM; l++)`
(SudokuSolver.cc:223 and 247), i.e. only 1..8 — digit 9 is never examined
there. -/

def digitsRC : List Nat := [1, 2, 3, 4, 5, 6, 7, 8]

/-- Run one family of scans: for each of the 9 units (outer loop) and each
digit of `digits` (inner loop) perform a `scanStep`. -/

def scanUnits (unitCells : Nat → List (Nat × Nat)) (digits : List Nat)
    (p : SState × Bool) : SState × Bool :=
  (List.range 9).foldl
    (fun q k => digits.foldl (fun q2 l => scanStep (unitCells k) q2 l) q) p

/-- One iteration of the `while (true)` loop of `solveLogical`: reset
`flagValueSet`, then block scan (digits 1..9), then the scan over the cells of
each row (digits 1..8), then the scan over the cells of each column
(digits 1..8). -/

def logicalIter (s : SState) : SState × Bool :=
  scanUnits colUnitCells digitsRC
    (scanUnits rowUnitCells digitsRC
      (scanUnits blockCells digitsAll (s, false)))

/-- Count of empty in-range cells; used only to budget the fuel of the logical
loop. -/

def countEmpty (m : List (List Nat)) : Nat :=
  allCells.countP (fun rc => getCell m rc.1 rc.2 == 0)

/-- Fuel-bounded embedding of the `while (true)` loop of `solveLogical`
(SudokuSolver.cc:191-271): iterate until an iteration sets no value. -/

def solveLogicalF : Nat → SState → SState
  | 0, s => s
  | fuel + 1, s =>
    let p := logicalIter s
    if p.2 then solveLogicalF fuel p.1 else p.1

/-- `solveLogical()`: every iteration that continues fills at least one empty
cell, so `countEmpty + 1` iterations always reach the fixpoint. -/

def solveLogical (s : SState) : SState := solveLogicalF (countEmpty s.mat + 1) s

/-! ### The backtracking search (`solveBacktrack`, SudokuSolver.cc:291-313) -/

/-- The `for (val = 1; val <= NUM; val++)` loop body of `solveBacktrack`
(SudokuSolver.cc:300-312), with the recursive call abstracted as `rec`.
For each digit: if `checkValid` holds, commit it and recurse; on failure
`resetTag(i, j, proMat[i][j])` and try the next digit.  After the loop,
`resetTag(i, j, proMat[i][j]); proMat[i][j] = 0; return false`.  `none`
propagates fuel exhaustion of the abstracted recursion. -/

def tryVals (rec : SState → Option (SState × Bool)) (s : SState) (i j : Nat) :
    List Nat → Option (SState × Bool)
  | [] =>
    let s1 := resetTag s i j (getCell s.mat i j)
    some ({ s1 with mat := setCell s1.mat i j 0 }, false)
  | v :: rest =>
    if checkValid s i j v then
      match rec (assignCell s i j v) with
      | none => none
      | some (t, true) => some (t, true)
      | some (t, false) =>
        tryVals rec (resetTag t i j (getCell t.mat i j)) i j rest
    else tryVals rec s i j rest

/-- Fuel-bounded embedding of `solveBacktrack(i, j, proMat)`
(SudokuSolver.cc:291-313).  On entry, `if (i == NUM) { i = 0; if (++j == NUM)
return true; }` normalises the position and falls through; the fall-through
body is expanded into both branches here (with the normalised `(0, j+1)` in the
first).  A filled cell is skipped by recursing at `(i+1, j)` (the search
advances the row index inside a column, then moves to the next column); an
empty cell runs the digit loop.  Each nested call burns one unit of fuel, so
fuel bounds the recursion depth, which never exceeds 83 from an in-range
start. -/

def solveBacktrackF : Nat → SState → Nat → Nat → Option (SState × Bool)
  | 0, _, _, _ => none
  | fuel + 1, s, i, j =>
    if i = 9 then
      if j + 1 = 9 then some (s, true)
      else
        if getCell s.mat 0 (j + 1) > 0 then solveBacktrackF fuel s 1 (j + 1)
        else tryVals (fun t => solveBacktrackF fuel t 1 (j + 1)) s 0 (j + 1) digitsAll
    else
      if getCell s.mat i j > 0 then solveBacktrackF fuel s (i + 1) j
      else tryVals (fun t => solveBacktrackF fuel t (i + 1) j) s i j digitsAll

/-- `solvePuzzle()` (SudokuSolver.cc:173-177): `solveLogical()` then
`solveBacktrack(0, 0, problemMatrix)`.  Fuel 100 exceeds the maximal
recursion depth 83 of the search. -/

def solvePuzzle (s : SState) : Option (SState × Bool) :=
  solveBacktrackF 100 (solveLogical s) 0 0

/-- Observable outcome of running the `SudokuSolver` constructor
(SudokuSolver.cc:61-85): on success the solved matrix is copied back to the
caller; otherwise the constructor prints an error to `cerr` and calls
`exit(1)`.  `outOfFuel` is an artefact of the fuel embedding and is proved
unreachable. -/

inductive CtorResult where
  | solved (g : List (List Nat))
  | exitProcess (msg : String) (code : Nat)
  | outOfFuel
deriving DecidableEq

/-- The full run of the `SudokuSolver` constructor on a caller matrix. -/

def sudokuSolverRun (input : List (List Int)) : CtorResult :=
  match solvePuzzle (buildState input) with
  | some (t, true) => CtorResult.solved t.mat
  | some (_, false) => CtorResult.exitProcess "Error: Puzzle cannot  be solved." 1
  | none => CtorResult.outOfFuel

/-! ### The traversal order claimed by the spec, and concrete inputs -/

/-- Modelled from the spec: §4.3 describes the search as "a depth-first search
over a linear traversal of all 81 cells in row-major order (cell index
`i = row*9+col`, advancing column-first within a row, then next row)".  This
is the same search as `solveBacktrackF` with only that traversal changed:
the normalisation wraps the column index and the recursion advances `j`. -/

def solveBacktrackRowMajorF : Nat → SState → Nat → Nat → Option (SState × Bool)
  | 0, _, _, _ => none
  | fuel + 1, s, i, j =>
    if j = 9 then
      if i + 1 = 9 then some (s, true)
      else
        if getCell s.mat (i + 1) 0 > 0 then solveBacktrackRowMajorF fuel s (i + 1) 1
        else tryVals (fun t => solveBacktrackRowMajorF fuel t (i + 1) 1) s (i + 1) 0 digitsAll
    else
      if getCell s.mat i j > 0 then solveBacktrackRowMajorF fuel s i (j + 1)
      else tryVals (fun t => solveBacktrackRowMajorF fuel t i (j + 1)) s i j digitsAll

/-- The traversal the source actually performs, written as a single linear
position `p`: the cell visited at position `p` is `(p % 9, p / 9)`, i.e. the
search advances the row index within a column and then moves to the next
column (column-major), trying digits 1..9 ascending at each empty cell. -/

def searchSpecCM : Nat → SState → Nat → Option (SState × Bool)
  | 0, _, _ => none
  | fuel + 1, s, p =>
    if p = 81 then some (s, true)
    else
      if getCell s.mat (p % 9) (p / 9) > 0 then searchSpecCM fuel s (p + 1)
      else tryVals (fun t => searchSpecCM fuel t (p + 1)) s (p % 9) (p / 9) digitsAll

/-- The caller's value at cell `(r, c)` of the input matrix (the matrix handed
to the `SudokuSolver` constructor), defaulting to 0 out of range. -/

def getInput (input : List (List Int)) (r c : Nat) : Int :=
  (input.getD r []).getD c 0

/-- A tracker state whose row flag (0, 0) is already set (digit 1 marked as
present in row 0), all other flags clear, matrix all-empty. -/

def S4 : SState :=
  ⟨List.replicate 9 (List.replicate 9 0),
   [true, false, false, false, false, false, false, false, false]
     :: List.replicate 8 (List.replicate 9 false),
   List.replicate 9 (List.replicate 9 false),
   List.replicate 9 (List.replicate 9 false)⟩

/-- A caller matrix with every cell 5: every value is in 1..9, so the constructor copies it verbatim; no cell is empty. -/

def all5input : List (List Int) :=
  [[5, 5, 5, 5, 5, 5, 5, 5, 5],
   [5, 5, 5, 5, 5, 5, 5, 5, 5],
   [5, 5, 5, 5, 5, 5, 5, 5, 5],
   [5, 5, 5, 5, 5, 5, 5, 5, 5],
   [5, 5, 5, 5, 5, 5, 5, 5, 5],
   [5, 5, 5, 5, 5, 5, 5, 5, 5],
   [5, 5, 5, 5, 5, 5, 5, 5, 5],
   [5, 5, 5, 5, 5, 5, 5, 5, 5],
   [5, 5, 5, 5, 5, 5, 5, 5, 5]]

/-- The solver state built from `all5input` (matrix plus seeded tags). -/

def Sall5 : SState :=
  ⟨[[5, 5, 5, 5, 5, 5, 5, 5, 5],
   [5, 5, 5, 5, 5, 5, 5, 5, 5],
   [5, 5, 5, 5, 5, 5, 5, 5, 5],
   [5, 5, 5, 5, 5, 5, 5, 5, 5],
   [5, 5, 5, 5, 5, 5, 5, 5, 5],
   [5, 5, 5, 5, 5, 5, 5, 5, 5],
   [5, 5, 5, 5, 5, 5, 5, 5, 5],
   [5, 5, 5, 5, 5, 5, 5, 5, 5],
   [5, 5, 5, 5, 5, 5, 5, 5, 5]],
  [[false, false, false, false, true, false, false, false, false],
   [false, false, false, false, true, false, false, false, false],
   [false, false, false, false, true, false, false, false, false],
   [false, false, false, false, true, false, false, false, false],
   [false, false, false, false, true, false, false, false, false],
   [false, false, false, false, true, false, false, false, false],
   [false, false, false, false, true, false, false, false, false],
   [false, false, false, false, true, false, false, false, false],
   [false, false, false, false, true, false, false, false, false]],
  [[false, false, false, false, false, false, false, false, false],
   [false, false, false, false, false, false, false, false, false],
   [false, false, false, false, false, false, false, false, false],
   [false, false, false, false, false, false, false, false, false],
   [true, true, true, true, true, true, true, true, true],
   [false, false, false, false, false, false, false, false, false],
   [false, false, false, false, false, false, false, false, false],
   [false, false, false, false, false, false, false, false, false],
   [false, false, false, false, false, false, false, false, false]],
  [[false, false, false, false, true, false, false, false, false],
   [false, false, false, false, true, false, false, false, false],
   [false, false, false, false, true, false, false, false, false],
   [false, false, false, false, true, false, false, false, false],
   [false, false, false, false, true, false, false, false, false],
   [false, false, false, false, true, false, false, false, false],
   [false, false, false, false, true, false, false, false, false],
   [false, false, false, false, true, false, false, false, false],
   [false, false, false, false, true, false, false, false, false]]⟩

/-- An already-solved valid grid, used to exercise the success path. -/

def winput : List (List Int) :=
  [[1, 2, 3, 4, 5, 6, 7, 8, 9],
   [4, 5, 6, 7, 8, 9, 1, 2, 3],
   [7, 8, 9, 1, 2, 3, 4, 5, 6],
   [2, 3, 1, 5, 6, 4, 8, 9, 7],
   [5, 6, 4, 8, 9, 7, 2, 3, 1],
   [8, 9, 7, 2, 3, 1, 5, 6, 4],
   [3, 1, 2, 6, 4, 5, 9, 7, 8],
   [6, 4, 5, 9, 7, 8, 3, 1, 2],
   [9, 7, 8, 3, 1, 2, 6, 4, 5]]

/-- The solver state built from `winput` (matrix plus seeded tags). -/

def SW : SState :=
  ⟨[[1, 2, 3, 4, 5, 6, 7, 8, 9],
   [4, 5, 6, 7, 8, 9, 1, 2, 3],
   [7, 8, 9, 1, 2, 3, 4, 5, 6],
   [2, 3, 1, 5, 6, 4, 8, 9, 7],
   [5, 6, 4, 8, 9, 7, 2, 3, 1],
   [8, 9, 7, 2, 3, 1, 5, 6, 4],
   [3, 1, 2, 6, 4, 5, 9, 7, 8],
   [6, 4, 5, 9, 7, 8, 3, 1, 2],
   [9, 7, 8, 3, 1, 2, 6, 4, 5]],
  [[true, true, true, true, true, true, true, true, true],
   [true, true, true, true, true, true, true, true, true],
   [true, true, true, true, true, true, true, true, true],
   [true, true, true, true, true, true, true, true, true],
   [true, true, true, true, true, true, true, true, true],
   [true, true, true, true, true, true, true, true, true],
   [true, true, true, true, true, true, true, true, true],
   [true, true, true, true, true, true, true, true, true],
   [true, true, true, true, true, true, true, true, true]],
  [[true, true, true, true, true, true, true, true, true],
   [true, true, true, true, true, true, true, true, true],
   [true, true, true, true, true, true, true, true, true],
   [true, true, true, true, true, true, true, true, true],
   [true, true, true, true, true, true, true, true, true],
   [true, true, true, true, true, true, true, true, true],
   [true, true, true, true, true, true, true, true, true],
   [true, true, true, true, true, true, true, true, true],
   [true, true, true, true, true, true, true, true, true]],
  [[true, true, true, true, true, true, true, true, true],
   [true, true, true, true, true, true, true, true, true],
   [true, true, true, true, true, true, true, true, true],
   [true, true, true, true, true, true, true, true, true],
   [true, true, true, true, true, true, true, true, true],
   [true, true, true, true, true, true, true, true, true],
   [true, true, true, true, true, true, true, true, true],
   [true, true, true, true, true, true, true, true, true],
   [true, true, true, true, true, true, true, true, true]]⟩

/-- Row 0 holds 1..8 in columns 1..8 and column 0 holds 9 at row 1, so cell (0,0) has no legal digit: the search fails at once. -/

def g5input : List (List Int) :=
  [[0, 1, 2, 3, 4, 5, 6, 7, 8],
   [9, 0, 0, 0, 0, 0, 0, 0, 0],
   [0, 0, 0, 0, 0, 0, 0, 0, 0],
   [0, 0, 0, 0, 0, 0, 0, 0, 0],
   [0, 0, 0, 0, 0, 0, 0, 0, 0],
   [0, 0, 0, 0, 0, 0, 0, 0, 0],
   [0, 0, 0, 0, 0, 0, 0, 0, 0],
   [0, 0, 0, 0, 0, 0, 0, 0, 0],
   [0, 0, 0, 0, 0, 0, 0, 0, 0]]

/-- The solver state built from `g5input` (matrix plus seeded tags). -/

def S5 : SState :=
  ⟨[[0, 1, 2, 3, 4, 5, 6, 7, 8],
   [9, 0, 0, 0, 0, 0, 0, 0, 0],
   [0, 0, 0, 0, 0, 0, 0, 0, 0],
   [0, 0, 0, 0, 0, 0, 0, 0, 0],
   [0, 0, 0, 0, 0, 0, 0, 0, 0],
   [0, 0, 0, 0, 0, 0, 0, 0, 0],
   [0, 0, 0, 0, 0, 0, 0, 0, 0],
   [0, 0, 0, 0, 0, 0, 0, 0, 0],
   [0, 0, 0, 0, 0, 0, 0, 0, 0]],
  [[true, true, true, true, true, true, true, true, false],
   [false, false, false, false, false, false, false, false, true],
   [false, false, false, false, false, false, false, false, false],
   [false, false, false, false, false, false, false, false, false],
   [false, false, false, false, false, false, false, false, false],
   [false, false, false, false, false, false, false, false, false],
   [false, false, false, false, false, false, false, false, false],
   [false, false, false, false, false, false, false, false, false],
   [false, false, false, false, false, false, false, false, false]],
  [[false, true, false, false, false, false, false, false, false],
   [false, false, true, false, false, false, false, false, false],
   [false, false, false, true, false, false, false, false, false],
   [false, false, false, false, true, false, false, false, false],
   [false, false, false, false, false, true, false, false, false],
   [false, false, false, false, false, false, true, false, false],
   [false, false, false, false, false, false, false, true, false],
   [false, false, false, false, false, false, false, false, true],
   [true, false, false, false, false, false, false, false, false]],
  [[true, true, false, false, false, false, false, false, true],
   [false, false, true, true, true, false, false, false, false],
   [false, false, false, false, false, true, true, true, false],
   [false, false, false, false, false, false, false, false, false],
   [false, false, false, false, false, false, false, false, false],
   [false, false, false, false, false, false, false, false, false],
   [false, false, false, false, false, false, false, false, false],
   [false, false, false, false, false, false, false, false, false],
   [false, false, false, false, false, false, false, false, false]]⟩

/-- Row 4 holds 1,2,3,4 and column 4 holds 6,7,8,9, making 5 the unique candidate of cell (4,4); yet 5 fits several cells of row 4, column 4 and block 4, so no scan commits it. -/

def g6input : List (List Int) :=
  [[0, 0, 0, 0, 6, 0, 0, 0, 0],
   [0, 0, 0, 0, 7, 0, 0, 0, 0],
   [0, 0, 0, 0, 8, 0, 0, 0, 0],
   [0, 0, 0, 0, 9, 0, 0, 0, 0],
   [1, 2, 3, 4, 0, 0, 0, 0, 0],
   [0, 0, 0, 0, 0, 0, 0, 0, 0],
   [0, 0, 0, 0, 0, 0, 0, 0, 0],
   [0, 0, 0, 0, 0, 0, 0, 0, 0],
   [0, 0, 0, 0, 0, 0, 0, 0, 0]]

/-- The solver state built from `g6input` (matrix plus seeded tags). -/

def S6 : SState :=
  ⟨[[0, 0, 0, 0, 6, 0, 0, 0, 0],
   [0, 0, 0, 0, 7, 0, 0, 0, 0],
   [0, 0, 0, 0, 8, 0, 0, 0, 0],
   [0, 0, 0, 0, 9, 0, 0, 0, 0],
   [1, 2, 3, 4, 0, 0, 0, 0, 0],
   [0, 0, 0, 0, 0, 0, 0, 0, 0],
   [0, 0, 0, 0, 0, 0, 0, 0, 0],
   [0, 0, 0, 0, 0, 0, 0, 0, 0],
   [0, 0, 0, 0, 0, 0, 0, 0, 0]],
  [[false, false, false, false, false, true, false, false, false],
   [false, false, false, false, false, false, true, false, false],
   [false, false, false, false, false, false, false, true, false],
   [false, false, false, false, false, false, false, false, true],
   [true, true, true, true, false, false, false, false, false],
   [false, false, false, false, false, false, false, false, false],
   [false, false, false, false, false, false, false, false, false],
   [false, false, false, false, false, false, false, false, false],
   [false, false, false, false, false, false, false, false, false]],
  [[true, false, false, false, false, false, false, false, false],
   [false, true, false, false, false, false, false, false, false],
   [false, false, true, false, false, false, false, false, false],
   [false, false, false, true, false, false, false, false, false],
   [false, false, false, false, false, false, false, false, false],
   [false, false, false, false, true, false, false, false, false],
   [false, false, false, false, true, false, false, false, false],
   [false, false, false, false, true, false, false, false, false],
   [false, false, false, false, true, false, false, false, false]],
  [[false, false, false, false, false, false, false, false, false],
   [false, false, false, false, false, true, true, true, false],
   [false, false, false, false, false, false, false, false, false],
   [true, true, true, false, false, false, false, false, false],
   [false, false, false, true, false, false, false, false, true],
   [false, false, false, false, false, false, false, false, false],
   [false, false, false, false, false, false, false, false, false],
   [false, false, false, false, false, false, false, false, false],
   [false, false, false, false, false, false, false, false, false]]⟩

/-- Row 0 holds 1..8 in columns 0..7: digit 9 is the unique candidate of the only empty cell (0,8) of row 0, but only the scans over rows and columns would see it as a row single, and they stop at digit 8. -/

def g7input : List (List Int) :=
  [[1, 2, 3, 4, 5, 6, 7, 8, 0],
   [0, 0, 0, 0, 0, 0, 0, 0, 0],
   [0, 0, 0, 0, 0, 0, 0, 0, 0],
   [0, 0, 0, 0, 0, 0, 0, 0, 0],
   [0, 0, 0, 0, 0, 0, 0, 0, 0],
   [0, 0, 0, 0, 0, 0, 0, 0, 0],
   [0, 0, 0, 0, 0, 0, 0, 0, 0],
   [0, 0, 0, 0, 0, 0, 0, 0, 0],
   [0, 0, 0, 0, 0, 0, 0, 0, 0]]

/-- The solver state built from `g7input` (matrix plus seeded tags). -/

def S7 : SState :=
  ⟨[[1, 2, 3, 4, 5, 6, 7, 8, 0],
   [0, 0, 0, 0, 0, 0, 0, 0, 0],
   [0, 0, 0, 0, 0, 0, 0, 0, 0],
   [0, 0, 0, 0, 0, 0, 0, 0, 0],
   [0, 0, 0, 0, 0, 0, 0, 0, 0],
   [0, 0, 0, 0, 0, 0, 0, 0, 0],
   [0, 0, 0, 0, 0, 0, 0, 0, 0],
   [0, 0, 0, 0, 0, 0, 0, 0, 0],
   [0, 0, 0, 0, 0, 0, 0, 0, 0]],
  [[true, true, true, true, true, true, true, true, false],
   [false, false, false, false, false, false, false, false, false],
   [false, false, false, false, false, false, false, false, false],
   [false, false, false, false, false, false, false, false, false],
   [false, false, false, false, false, false, false, false, false],
   [false, false, false, false, false, false, false, false, false],
   [false, false, false, false, false, false, false, false, false],
   [false, false, false, false, false, false, false, false, false],
   [false, false, false, false, false, false, false, false, false]],
  [[true, false, false, false, false, false, false, false, false],
   [false, true, false, false, false, false, false, false, false],
   [false, false, true, false, false, false, false, false, false],
   [false, false, false, true, false, false, false, false, false],
   [false, false, false, false, true, false, false, false, false],
   [false, false, false, false, false, true, false, false, false],
   [false, false, false, false, false, false, true, false, false],
   [false, false, false, false, false, false, false, true, false],
   [false, false, false, false, false, false, false, false, false]],
  [[true, true, true, false, false, false, false, false, false],
   [false, false, false, true, true, true, false, false, false],
   [false, false, false, false, false, false, true, true, false],
   [false, false, false, false, false, false, false, false, false],
   [false, false, false, false, false, false, false, false, false],
   [false, false, false, false, false, false, false, false, false],
   [false, false, false, false, false, false, false, false, false],
   [false, false, false, false, false, false, false, false, false],
   [false, false, false, false, false, false, false, false, false]]⟩

/-- Two 5s in row 0 (columns 0 and 1), the Unsolvable-detection scenario of §8 of the spec. -/

def c8input : List (List Int) :=
  [[5, 5, 0, 0, 0, 0, 0, 0, 0],
   [0, 0, 0, 0, 0, 0, 0, 0, 0],
   [0, 0, 0, 0, 0, 0, 0, 0, 0],
   [0, 0, 0, 0, 0, 0, 0, 0, 0],
   [0, 0, 0, 0, 0, 0, 0, 0, 0],
   [0, 0, 0, 0, 0, 0, 0, 0, 0],
   [0, 0, 0, 0, 0, 0, 0, 0, 0],
   [0, 0, 0, 0, 0, 0, 0, 0, 0],
   [0, 0, 0, 0, 0, 0, 0, 0, 0]]

/-- The solver state built from `c8input` (matrix plus seeded tags). -/

def S8 : SState :=
  ⟨[[5, 5, 0, 0, 0, 0, 0, 0, 0],
   [0, 0, 0, 0, 0, 0, 0, 0, 0],
   [0, 0, 0, 0, 0, 0, 0, 0, 0],
   [0, 0, 0, 0, 0, 0, 0, 0, 0],
   [0, 0, 0, 0, 0, 0, 0, 0, 0],
   [0, 0, 0, 0, 0, 0, 0, 0, 0],
   [0, 0, 0, 0, 0, 0, 0, 0, 0],
   [0, 0, 0, 0, 0, 0, 0, 0, 0],
   [0, 0, 0, 0, 0, 0, 0, 0, 0]],
  [[false, false, false, false, true, false, false, false, false],
   [false, false, false, false, false, false, false, false, false],
   [false, false, false, false, false, false, false, false, false],
   [false, false, false, false, false, false, false, false, false],
   [false, false, false, false, false, false, false, false, false],
   [false, false, false, false, false, false, false, false, false],
   [false, false, false, false, false, false, false, false, false],
   [false, false, false, false, false, false, false, false, false],
   [false, false, false, false, false, false, false, false, false]],
  [[false, false, false, false, false, false, false, false, false],
   [false, false, false, false, false, false, false, false, false],
   [false, false, false, false, false, false, false, false, false],
   [false, false, false, false, false, false, false, false, false],
   [true, true, false, false, false, false, false, false, false],
   [false, false, false, false, false, false, false, false, false],
   [false, false, false, false, false, false, false, false, false],
   [false, false, false, false, false, false, false, false, false],
   [false, false, false, false, false, false, false, false, false]],
  [[false, false, false, false, true, false, false, false, false],
   [false, false, false, false, false, false, false, false, false],
   [false, false, false, false, false, false, false, false, false],
   [false, false, false, false, false, false, false, false, false],
   [false, false, false, false, false, false, false, false, false],
   [false, false, false, false, false, false, false, false, false],
   [false, false, false, false, false, false, false, false, false],
   [false, false, false, false, false, false, false, false, false],
   [false, false, false, false, false, false, false, false, false]]⟩

/-- A puzzle with several solutions: the column-major search of the source and the row-major search claimed by the spec return different grids. -/

def g3input : List (List Int) :=
  [[8, 4, 2, 0, 5, 6, 0, 7, 3],
   [7, 3, 0, 2, 4, 8, 0, 6, 5],
   [6, 5, 0, 0, 3, 7, 2, 0, 4],
   [9, 6, 0, 3, 7, 1, 4, 2, 8],
   [2, 8, 4, 5, 6, 0, 3, 1, 7],
   [1, 7, 3, 4, 0, 2, 5, 9, 0],
   [3, 1, 7, 8, 2, 4, 6, 5, 9],
   [4, 2, 8, 6, 9, 5, 7, 3, 1],
   [5, 9, 6, 7, 1, 0, 0, 4, 2]]

/-- The solver state built from `g3input` (matrix plus seeded tags). -/

def S3 : SState :=
  ⟨[[8, 4, 2, 0, 5, 6, 0, 7, 3],
   [7, 3, 0, 2, 4, 8, 0, 6, 5],
   [6, 5, 0, 0, 3, 7, 2, 0, 4],
   [9, 6, 0, 3, 7, 1, 4, 2, 8],
   [2, 8, 4, 5, 6, 0, 3, 1, 7],
   [1, 7, 3, 4, 0, 2, 5, 9, 0],
   [3, 1, 7, 8, 2, 4, 6, 5, 9],
   [4, 2, 8, 6, 9, 5, 7, 3, 1],
   [5, 9, 6, 7, 1, 0, 0, 4, 2]],
  [[false, true, true, true, true, true, true, true, false],
   [false, true, true, true, true, true, true, true, false],
   [false, true, true, true, true, true, true, false, false],
   [true, true, true, true, false, true, true, true, true],
   [true, true, true, true, true, true, true, true, false],
   [true, true, true, true, true, false, true, false, true],
   [true, true, true, true, true, true, true, true, true],
   [true, true, true, true, true, true, true, true, true],
   [true, true, false, true, true, true, true, false, true]],
  [[true, true, false, false, true, true, false, true, true],
   [true, true, true, true, true, true, true, true, true],
   [true, true, true, true, true, false, true, true, true],
   [true, true, true, true, true, true, true, true, true],
   [true, true, false, true, true, true, true, true, true],
   [true, true, true, true, true, true, true, true, false],
   [true, true, true, true, true, true, true, true, true],
   [true, true, true, true, false, true, false, false, true],
   [true, true, false, false, true, false, false, true, true]],
  [[false, true, true, true, true, true, true, true, false],
   [false, true, true, true, true, true, true, true, false],
   [false, true, true, true, true, true, true, false, false],
   [true, true, true, true, false, true, true, true, true],
   [true, true, true, true, true, true, true, false, false],
   [true, true, true, true, true, false, true, true, true],
   [true, true, true, true, true, true, true, true, true],
   [true, true, false, true, true, true, true, true, true],
   [true, true, true, true, true, true, true, false, true]]⟩

/-! ### Two-dimensional reads and writes -/

/-- Well-formedness of a 9x9 table: what the C++ type `T[9][9]` guarantees. -/

def Wf2 {α : Type} (l : List (List α)) : Prop :=
  l.length = 9 ∧ ∀ r ∈ l, r.length = 9

instance {α : Type} [DecidableEq α] (l : List (List α)) : Decidable (Wf2 l) := by
  unfold Wf2; infer_instance

/-! ### Basic state lemmas -/

/-- Well-formed solver state: all four tables are 9x9, as the C++ member
declarations `int problemMatrix[9][9]; bool tagRow[9][9]; ...` guarantee. -/

def WfS (s : SState) : Prop :=
  Wf2 s.mat ∧ Wf2 s.tagRow ∧ Wf2 s.tagCol ∧ Wf2 s.tagBlk

instance (s : SState) : Decidable (WfS s) := by unfold WfS; infer_instance

/-- The matrix with one cell overwritten and the tags untouched: the state the
digit loop of `solveBacktrack` carries between two trials after `resetTag`
restored the tags but before `proMat[i][j]` is overwritten or zeroed. -/

def cellSet (s : SState) (i j w : Nat) : SState :=
  { s with mat := setCell s.mat i j w }

/-! ### Failure of `solveBacktrack` restores the state (the source resets every
tentative placement on the way out: lines 307 and 310-311). -/

/-- The shape of the matrix cell `(i,j)` while the digit loop runs. -/

def LoopVal (s : SState) (i j w : Nat) : Prop :=
  w = 0 ∨ (w ≠ 0 ∧ checkValid s i j w = true)

/-! ### Constraint invariants -/

/-- Two cells share a row, a column, or a 3x3 block. -/

def SameUnit (r c r' c' : Nat) : Prop := r = r' ∨ c = c' ∨ blk r c = blk r' c'

instance (r c r' c' : Nat) : Decidable (SameUnit r c r' c') := by
  unfold SameUnit; infer_instance

/-- Every filled in-range cell has its three tags set (§3 of the spec, first
half of the tracker invariant).  Recall `tagCol` is indexed digit-first. -/

def InvTags (s : SState) : Prop :=
  ∀ r, r < 9 → ∀ c, c < 9 → getCell s.mat r c ≠ 0 →
    getTag s.tagRow r (getCell s.mat r c - 1) = true ∧
    getTag s.tagCol (getCell s.mat r c - 1) c = true ∧
    getTag s.tagBlk (blk r c) (getCell s.mat r c - 1) = true

instance (s : SState) : Decidable (InvTags s) := by
  unfold InvTags; infer_instance

/-- All in-range cells hold values at most 9. -/

def ValLe9 (m : List (List Nat)) : Prop := ∀ r, r < 9 → ∀ c, c < 9 → getCell m r c ≤ 9

instance (m : List (List Nat)) : Decidable (ValLe9 m) := by
  unfold ValLe9; infer_instance

/-- `m'` agrees with `m` on every filled in-range cell of `m`. -/

def ExtendsM (m m' : List (List Nat)) : Prop :=
  ∀ r, r < 9 → ∀ c, c < 9 → getCell m r c ≠ 0 → getCell m' r c = getCell m r c

/-- Any two distinct same-unit cells of `m'` carrying the same nonzero value
were already filled in `m`: the transition from `m` to `m'` introduced no
same-unit duplicate. -/

def NoNewDup (m m' : List (List Nat)) : Prop :=
  ∀ r, r < 9 → ∀ c, c < 9 → ∀ r', r' < 9 → ∀ c', c' < 9 → ¬(r = r' ∧ c = c') →
    SameUnit r c r' c' → getCell m' r c ≠ 0 → getCell m' r c = getCell m' r' c' →
    getCell m r c ≠ 0 ∧ getCell m r' c' ≠ 0

/-- No two distinct same-unit filled cells of `m` share a value (second half of
the tracker invariant, §3 of the spec). -/

def NoDups (m : List (List Nat)) : Prop :=
  ∀ r, r < 9 → ∀ c, c < 9 → ∀ r', r' < 9 → ∀ c', c' < 9 → ¬(r = r' ∧ c = c') →
    SameUnit r c r' c' → getCell m r c ≠ 0 → getCell m r c ≠ getCell m r' c'

instance (m : List (List Nat)) : Decidable (NoDups m) :=
  have inner : ∀ r c r' c', Decidable (¬(r = r' ∧ c = c') → SameUnit r c r' c' →
      getCell m r c ≠ 0 → getCell m r c ≠ getCell m r' c') := fun r c r' c' => by
    infer_instance
  by unfold NoDups; exact Nat.decidableBallLT _ _

/-- Bundle of state facts preserved by both solving phases. -/

def GoodS (s : SState) : Prop := WfS s ∧ InvTags s ∧ ValLe9 s.mat

/-- The tracker invariant of §3 of the spec: flags of every filled cell set
(`InvTags`), plus no two filled same-unit cells sharing a value (`NoDups`);
`WfS` and `ValLe9` record that the state is a well-formed 9x9 board, which the
fixed-size C++ arrays give for free. -/

def Inv (s : SState) : Prop := GoodS s ∧ NoDups s.mat

/-- Removing a cell: `resetTag(i, j, v)` followed by zeroing the cell —
the way `solveBacktrack` undoes a placement (lines 307+311 / 310-311). -/

def unplaceCell (s : SState) (i j v : Nat) : SState :=
  let s1 := resetTag s i j v
  { s1 with mat := setCell s1.mat i j 0 }

/-! ### The counting loop of `solveLogical` -/

/-- The exact accept condition of the counting loops: the cell is empty and the
digit is legal there. -/

def acceptsB (s : SState) (l : Nat) (rc : Nat × Nat) : Bool :=
  decide (getCell s.mat rc.1 rc.2 = 0) && checkValid s rc.1 rc.2 l

/-! ### Progress of the logical pass -/

/-- Relation between two points of one `solveLogical` iteration: the matrix
only gains checkValid-certified placements, and either nothing happened or the
flag is raised with strictly fewer empty cells. -/

def Prog (p q : SState × Bool) : Prop :=
  ExtendsM p.1.mat q.1.mat ∧ NoNewDup p.1.mat q.1.mat ∧
  (q = p ∨ (q.2 = true ∧ countEmpty q.1.mat < countEmpty p.1.mat))

/-! ### Soundness and totality of the backtracking search -/

/-- All cells at column-major positions at or after `p` are filled
(position of `(r, c)` is `9*c + r`, matching the traversal of
`solveBacktrack`). -/

def PosFilled (m : List (List Nat)) (p : Nat) : Prop :=
  ∀ r, r < 9 → ∀ c, c < 9 → p ≤ 9 * c + r → getCell m r c ≠ 0

/-! ### A filled duplicate-free grid is a valid Sudoku solution -/

/-- The values of row `r`. -/

def rowList (m : List (List Nat)) (r : Nat) : List Nat :=
  (List.range 9).map (fun c => getCell m r c)

/-- The values of column `c`. -/

def colList (m : List (List Nat)) (c : Nat) : List Nat :=
  (List.range 9).map (fun r => getCell m r c)

/-- The values of block `b`. -/

def blkList (m : List (List Nat)) (b : Nat) : List Nat :=
  (List.range 9).map (fun t => getCell m ((b / 3) * 3 + t / 3) ((b % 3) * 3 + t % 3))

/-- A unit of nine cells contains each digit 1..9 exactly once. -/

def unitOK (l : List Nat) : Prop := ∀ d, d < 10 → 1 ≤ d → l.count d = 1

instance (l : List Nat) : Decidable (unitOK l) := by unfold unitOK; infer_instance

/-- The output contract of §6/§8 of the spec: every row, column and block
contains each digit 1-9 exactly once. -/

def validGrid (m : List (List Nat)) : Prop :=
  ∀ u, u < 9 → unitOK (rowList m u) ∧ unitOK (colList m u) ∧ unitOK (blkList m u)

instance (m : List (List Nat)) : Decidable (validGrid m) := by
  unfold validGrid; infer_instance

/-! ### Pointwise description of the constructor's tag tables -/

/-- Whether some processed cell sets the row flag `(a, b)`. -/

def rowTagOf (m : List (List Nat)) (a b : Nat) : Bool :=
  allCells.any (fun rc => rc.1 == a && getCell m rc.1 rc.2 == b + 1)

/-- Whether some processed cell sets the column flag `(a, b)` (digit-first). -/

def colTagOf (m : List (List Nat)) (a b : Nat) : Bool :=
  allCells.any (fun rc => rc.2 == b && getCell m rc.1 rc.2 == a + 1)

/-- Whether some processed cell sets the block flag `(a, b)`. -/

def blkTagOf (m : List (List Nat)) (a b : Nat) : Bool :=
  allCells.any (fun rc => blk rc.1 rc.2 == a && getCell m rc.1 rc.2 == b + 1)

/-! ### Primitive lemmas about `List.set` / `List.getD` -/

theorem length_set' {α : Type} (l : List α) (n : Nat) (a : α) :
    (l.set n a).length = l.length := by
  induction l generalizing n with
  | nil => rfl
  | cons x xs ih => cases n <;> simp [List.set, ih]

theorem set_oob {α : Type} {l : List α} {n : Nat} (h : l.length ≤ n) (a : α) :
    l.set n a = l := by
  induction l generalizing n with
  | nil => rfl
  | cons x xs ih =>
    cases n with
    | zero => exact absurd h (by simp)
    | succ m => simp only [List.set]; rw [ih (by simpa using h)]

theorem getD_set_eq {α : Type} {l : List α} {n : Nat} (h : n < l.length) (a d : α) :
    (l.set n a).getD n d = a := by
  induction l generalizing n with
  | nil => simp at h
  | cons x xs ih =>
    cases n with
    | zero => rfl
    | succ m => simpa using ih (by simpa using h)

theorem getD_set_ne {α : Type} (l : List α) {n m : Nat} (h : n ≠ m) (a d : α) :
    (l.set n a).getD m d = l.getD m d := by
  induction l generalizing n m with
  | nil => rfl
  | cons x xs ih =>
    cases n with
    | zero => cases m with
      | zero => exact absurd rfl h
      | succ m' => rfl
    | succ n' => cases m with
      | zero => rfl
      | succ m' => simpa using ih (fun e => h (by rw [e]))

theorem set_set' {α : Type} (l : List α) (n : Nat) (a b : α) :
    (l.set n a).set n b = l.set n b := by
  induction l generalizing n with
  | nil => rfl
  | cons x xs ih => cases n <;> simp [List.set, ih]

theorem set_getD_self {α : Type} (l : List α) (n : Nat) (d : α) :
    l.set n (l.getD n d) = l := by
  induction l generalizing n with
  | nil => rfl
  | cons x xs ih =>
    cases n with
    | zero => rfl
    | succ m =>
      show x :: xs.set m ((x :: xs).getD (m + 1) d) = x :: xs
      rw [List.getD_cons_succ, ih]

theorem set_of_getD_eq {α : Type} {l : List α} {n : Nat} {d v : α} (h : l.getD n d = v) :
    l.set n v = l := by
  rw [← h, set_getD_self]

theorem mem_of_mem_set {α : Type} {l : List α} {n : Nat} {a x : α}
    (h : x ∈ l.set n a) : x ∈ l ∨ x = a := by
  induction l generalizing n with
  | nil => simp at h
  | cons y ys ih =>
    cases n with
    | zero =>
      rcases List.mem_cons.mp h with h' | h'
      · right; exact h'
      · left; exact List.mem_cons_of_mem _ h'
    | succ m =>
      rcases List.mem_cons.mp h with h' | h'
      · left; exact h' ▸ List.mem_cons_self _ _
      · rcases ih h' with h'' | h''
        · left; exact List.mem_cons_of_mem _ h''
        · right; exact h''

theorem getD_mem {α : Type} {l : List α} {n : Nat} (h : n < l.length) (d : α) :
    l.getD n d ∈ l := by
  induction l generalizing n with
  | nil => simp at h
  | cons x xs ih =>
    cases n with
    | zero => exact List.mem_cons_self _ _
    | succ m =>
      rw [List.getD_cons_succ]
      exact List.mem_cons_of_mem _ (ih (by simpa using h))

theorem Wf2.set2 {α : Type} {l : List (List α)} (h : Wf2 l) (i j : Nat) (v : α) :
    Wf2 (Sudoku.set2 l i j v) := by
  by_cases hi : i < l.length
  · obtain ⟨hlen, hrow⟩ := h
    constructor
    · show (l.set i _).length = 9
      rw [length_set', hlen]
    · intro r hr
      rcases mem_of_mem_set hr with hm | hm
      · exact hrow r hm
      · subst hm
        rw [length_set']
        exact hrow _ (getD_mem hi [])
  · rw [show Sudoku.set2 l i j v = l from set_oob (by omega) _]
    exact h

theorem get2_set2_eq {α : Type} {l : List (List α)} (h : Wf2 l) {i j : Nat}
    (hi : i < 9) (hj : j < 9) (v d : α) : get2 (set2 l i j v) i j d = v := by
  obtain ⟨hlen, hrow⟩ := h
  have hi' : i < l.length := by omega
  have hrlen : (l.getD i []).length = 9 := hrow _ (getD_mem hi' [])
  show ((l.set i ((l.getD i []).set j v)).getD i []).getD j d = v
  rw [getD_set_eq (by rw [hlen]; omega), getD_set_eq (by rw [hrlen]; omega)]

theorem get2_set2_ne {α : Type} (l : List (List α)) {i j r c : Nat}
    (h : i ≠ r ∨ j ≠ c) (v d : α) : get2 (set2 l i j v) r c d = get2 l r c d := by
  show ((l.set i ((l.getD i []).set j v)).getD r []).getD c d = (l.getD r []).getD c d
  by_cases hir : i = r
  · subst hir
    rcases h with h | h
    · exact absurd rfl h
    · by_cases hl : i < l.length
      · rw [getD_set_eq hl, getD_set_ne _ h]
      · rw [set_oob (by omega)]
  · rw [getD_set_ne _ hir]

theorem set2_set2 {α : Type} (l : List (List α)) (i j : Nat) (a b : α) :
    set2 (set2 l i j a) i j b = set2 l i j b := by
  by_cases hl : i < l.length
  · show (l.set i _).set i (((l.set i _).getD i []).set j b) = l.set i _
    rw [getD_set_eq hl, set_set', set_set']
  · have h1 : Sudoku.set2 l i j a = l := set_oob (by omega) _
    rw [h1]

theorem set2_self {α : Type} {l : List (List α)} {i j : Nat} {v d : α}
    (h : get2 l i j d = v) : set2 l i j v = l := by
  show l.set i ((l.getD i []).set j v) = l
  rw [set_of_getD_eq (d := d) h, set_getD_self]

theorem wf2_replicate : Wf2 (List.replicate 9 (List.replicate 9 (false : Bool))) := by
  constructor
  · simp
  · intro r hr
    rw [List.eq_of_mem_replicate hr]
    simp

theorem stateExt {s t : SState} (hm : s.mat = t.mat) (h1 : s.tagRow = t.tagRow)
    (h2 : s.tagCol = t.tagCol) (h3 : s.tagBlk = t.tagBlk) : s = t := by
  cases s; cases t; simp_all

theorem assignTag_mat (s : SState) (i j n : Nat) : (assignTag s i j n).mat = s.mat := by
  unfold assignTag; split <;> rfl

theorem resetTag_mat (s : SState) (i j n : Nat) : (resetTag s i j n).mat = s.mat := by
  unfold resetTag; split <;> rfl

theorem assignCell_mat (s : SState) (i j v : Nat) :
    (assignCell s i j v).mat = setCell s.mat i j v := by
  rw [assignCell, assignTag_mat]

theorem checkValid_cellSet (s : SState) (i j w r c l : Nat) :
    checkValid (cellSet s i j w) r c l = checkValid s r c l := rfl

theorem cellSet_zero {s : SState} {i j : Nat} (h0 : getCell s.mat i j = 0) :
    cellSet s i j 0 = s := by
  refine stateExt ?_ rfl rfl rfl
  exact set2_self h0

theorem assignCell_cellSet (s : SState) (i j w v : Nat) :
    assignCell (cellSet s i j w) i j v = assignCell s i j v := by
  unfold assignCell cellSet
  have h : setCell (setCell s.mat i j w) i j v = setCell s.mat i j v :=
    set2_set2 s.mat i j w v
  unfold assignTag
  split <;> exact stateExt h rfl rfl rfl

theorem setTag_cancel {t : List (List Bool)} {a b : Nat} (h : getTag t a b = false) :
    setTag (setTag t a b true) a b false = t := by
  show set2 (set2 t a b true) a b false = t
  rw [set2_set2]
  exact set2_self h

/-- Boolean reads of `checkValid s i j v = true`: all three tags are clear. -/

theorem checkValid_elim {s : SState} {i j v : Nat} (h : checkValid s i j v = true) :
    getTag s.tagRow i (v - 1) = false ∧ getTag s.tagCol (v - 1) j = false ∧
      getTag s.tagBlk (blk i j) (v - 1) = false := by
  rw [checkValid] at h
  simp only [Bool.and_eq_true, Bool.not_eq_true'] at h
  exact ⟨h.1.1, h.1.2, h.2⟩

/-- `resetTag` right after `assignTag` with the same arguments restores the
tags, provided the three tags were clear beforehand (which `checkValid`
certifies). -/

theorem resetTag_assignTag {s : SState} {i j v : Nat} (hv : v ≠ 0)
    (hcv : checkValid s i j v = true) :
    resetTag (assignTag s i j v) i j v = s := by
  obtain ⟨h1, h2, h3⟩ := checkValid_elim hcv
  unfold assignTag resetTag
  simp only [hv, if_false]
  exact stateExt rfl (setTag_cancel h1) (setTag_cancel h2) (setTag_cancel h3)

/-- `resetTag` after a full `assignCell` yields the `cellSet` state: tags
restored, matrix still holding the tried value. -/

theorem resetTag_assignCell {s : SState} {i j v : Nat} (hv : v ≠ 0)
    (hcv : checkValid s i j v = true) :
    resetTag (assignCell s i j v) i j v = cellSet s i j v := by
  unfold assignCell
  exact resetTag_assignTag hv hcv

theorem wf2_assignCell_mat {s : SState} (hW : Wf2 s.mat) (i j v : Nat) :
    Wf2 (assignCell s i j v).mat := by
  rw [assignCell_mat]
  exact hW.set2 i j v

theorem getCell_assignCell {s : SState} (hW : Wf2 s.mat) {i j : Nat}
    (hi : i < 9) (hj : j < 9) (v : Nat) : getCell (assignCell s i j v).mat i j = v := by
  rw [assignCell_mat]
  exact get2_set2_eq hW hi hj v 0

theorem tryVals_restore
    (rec : SState → Option (SState × Bool))
    (hrec : ∀ u t, Wf2 u.mat → rec u = some (t, false) → t = u)
    (s : SState) (i j : Nat) (hW : Wf2 s.mat) (hi : i < 9) (hj : j < 9)
    (h0 : getCell s.mat i j = 0) :
    ∀ (vals : List Nat), (∀ v ∈ vals, v ≠ 0) → ∀ (w : Nat), LoopVal s i j w →
      ∀ t, tryVals rec (cellSet s i j w) i j vals = some (t, false) → t = s := by
  intro vals
  induction vals with
  | nil =>
    intro _ w hw t heq
    have hcw : getCell (cellSet s i j w).mat i j = w :=
      get2_set2_eq hW hi hj w 0
    have hmat0 : setCell (cellSet s i j w).mat i j 0 = s.mat := by
      show set2 (set2 s.mat i j w) i j 0 = s.mat
      rw [set2_set2]
      exact set2_self h0
    rcases hw with hw0 | ⟨hwne, hcv⟩
    · subst hw0
      simp only [tryVals, hcw, resetTag, if_pos rfl, Option.some_inj] at heq
      have ht := congrArg Prod.fst heq
      simp only at ht
      rw [← ht]
      exact stateExt hmat0 rfl rfl rfl
    · have hreset : resetTag (cellSet s i j w) i j w = cellSet s i j w := by
        unfold resetTag cellSet
        simp only [hwne, if_false]
        exact stateExt rfl (set2_self (checkValid_elim hcv).1)
          (set2_self (checkValid_elim hcv).2.1) (set2_self (checkValid_elim hcv).2.2)
      simp only [tryVals, hcw, hreset, Option.some_inj] at heq
      have ht := congrArg Prod.fst heq
      simp only at ht
      rw [← ht]
      exact stateExt hmat0 rfl rfl rfl
  | cons v rest ih =>
    intro hvals w hw t heq
    have hv0 : v ≠ 0 := hvals v (List.mem_cons_self _ _)
    have hrest : ∀ x ∈ rest, x ≠ 0 := fun x hx => hvals x (List.mem_cons_of_mem _ hx)
    simp only [tryVals, checkValid_cellSet] at heq
    by_cases hcv : checkValid s i j v = true
    · rw [if_pos hcv, assignCell_cellSet] at heq
      set u := assignCell s i j v with hu
      have hWu : Wf2 u.mat := wf2_assignCell_mat hW i j v
      cases hr : rec u with
      | none => rw [hr] at heq; exact absurd heq (by simp)
      | some p =>
        obtain ⟨t', b'⟩ := p
        cases b' with
        | true =>
          rw [hr] at heq
          simp only [Option.some_inj] at heq
          exact absurd (congrArg Prod.snd heq) (by simp)
        | false =>
          rw [hr] at heq
          simp only at heq
          have ht' : t' = u := hrec u t' hWu hr
          subst ht'
          have hgu : getCell u.mat i j = v := getCell_assignCell hW hi hj v
          rw [hgu, hu, resetTag_assignCell hv0 hcv] at heq
          exact ih hrest v (Or.inr ⟨hv0, hcv⟩) t heq
    · rw [if_neg hcv] at heq
      exact ih hrest w hw t heq

/-- Helper: the failing result of `solveBacktrackF` is the entry state.
This is the inductive engine behind claim C10. -/

theorem sb_restore : ∀ (fuel : Nat) (s : SState) (i j : Nat) (t : SState),
    Wf2 s.mat → i ≤ 9 → j ≤ 8 →
    solveBacktrackF fuel s i j = some (t, false) → t = s := by
  intro fuel
  induction fuel with
  | zero => intro s i j t _ _ _ heq; exact absurd heq (by simp [solveBacktrackF])
  | succ f ih =>
    intro s i j t hW hi hj heq
    rw [solveBacktrackF] at heq
    by_cases h9 : i = 9
    · subst h9
      rw [if_pos rfl] at heq
      by_cases hj9 : j + 1 = 9
      · rw [if_pos hj9] at heq
        exact absurd heq (by simp)
      · rw [if_neg hj9] at heq
        by_cases hfill : getCell s.mat 0 (j + 1) > 0
        · rw [if_pos hfill] at heq
          exact ih s 1 (j + 1) t hW (by omega) (by omega) heq
        · rw [if_neg hfill] at heq
          have h0 : getCell s.mat 0 (j + 1) = 0 := by omega
          rw [← cellSet_zero h0] at heq
          exact tryVals_restore _ (fun u t' hWu h => ih u 1 (j + 1) t' hWu (by omega) (by omega) h)
            s 0 (j + 1) hW (by omega) (by omega) h0 digitsAll (by decide) 0 (Or.inl rfl) t heq
    · rw [if_neg h9] at heq
      have hi8 : i < 9 := by omega
      by_cases hfill : getCell s.mat i j > 0
      · rw [if_pos hfill] at heq
        exact ih s (i + 1) j t hW (by omega) hj heq
      · rw [if_neg hfill] at heq
        have h0 : getCell s.mat i j = 0 := by omega
        rw [← cellSet_zero h0] at heq
        exact tryVals_restore _ (fun u t' hWu h => ih u (i + 1) j t' hWu (by omega) hj h)
          s i j hW hi8 (by omega) h0 digitsAll (by decide) 0 (Or.inl rfl) t heq

theorem extendsM_refl (m : List (List Nat)) : ExtendsM m m := fun _ _ _ _ _ => rfl

theorem extendsM_trans {m1 m2 m3 : List (List Nat)} (h12 : ExtendsM m1 m2)
    (h23 : ExtendsM m2 m3) : ExtendsM m1 m3 := by
  intro r hr c hc h0
  rw [h23 r hr c hc (by rw [h12 r hr c hc h0]; exact h0), h12 r hr c hc h0]

theorem noNewDup_refl (m : List (List Nat)) : NoNewDup m m :=
  fun r _ c _ r' _ c' _ _ _ h0 he => ⟨h0, by rw [← he]; exact h0⟩

theorem noNewDup_trans {m1 m2 m3 : List (List Nat)} (h12 : NoNewDup m1 m2)
    (e23 : ExtendsM m2 m3) (h23 : NoNewDup m2 m3) : NoNewDup m1 m3 := by
  intro r hr c hc r' hr' c' hc' hne hsu h0 he
  obtain ⟨hm2, hm2'⟩ := h23 r hr c hc r' hr' c' hc' hne hsu h0 he
  refine h12 r hr c hc r' hr' c' hc' hne hsu hm2 ?_
  rw [← e23 r hr c hc hm2, ← e23 r' hr' c' hc' hm2']
  exact he

theorem noDups_of {m m' : List (List Nat)} (hD : NoDups m) (hE : ExtendsM m m')
    (hN : NoNewDup m m') : NoDups m' := by
  intro r hr c hc r' hr' c' hc' hne hsu h0 he
  obtain ⟨hm, hm'⟩ := hN r hr c hc r' hr' c' hc' hne hsu h0 he
  exact hD r hr c hc r' hr' c' hc' hne hsu hm
    (by rw [← hE r hr c hc hm, ← hE r' hr' c' hc' hm']; exact he)

/-! ### Counting lemmas -/

theorem countP_le_of {α : Type} {p q : α → Bool} :
    ∀ l : List α, (∀ x ∈ l, p x = true → q x = true) → l.countP p ≤ l.countP q := by
  intro l
  induction l with
  | nil => intro _; simp
  | cons x xs ih =>
    intro h
    rw [List.countP_cons, List.countP_cons]
    have hx := h x (List.mem_cons_self _ _)
    have hxs := ih (fun y hy => h y (List.mem_cons_of_mem _ hy))
    by_cases hp : p x = true
    · rw [hp, hx hp]
      omega
    · rw [Bool.not_eq_true] at hp
      have hc : (if p x = true then 1 else 0) = 0 := by rw [hp]; simp
      have : (if q x = true then 1 else 0) = 0 ∨ (if q x = true then 1 else 0) = 1 := by
        cases q x <;> simp
      omega

theorem countP_lt_of {α : Type} {p q : α → Bool} :
    ∀ l : List α, (∀ x ∈ l, p x = true → q x = true) →
      ∀ x₀ ∈ l, q x₀ = true → p x₀ = false → l.countP p < l.countP q := by
  intro l
  induction l with
  | nil => intro _ x₀ hx₀; simp at hx₀
  | cons x xs ih =>
    intro h x₀ hx₀ hq hp
    rw [List.countP_cons, List.countP_cons]
    have hle := countP_le_of xs (fun y hy => h y (List.mem_cons_of_mem _ hy))
    rcases List.mem_cons.mp hx₀ with hx | hx
    · subst hx
      have hc1 : (if p x₀ = true then 1 else 0) = 0 := by rw [hp]; simp
      have hc2 : (if q x₀ = true then 1 else 0) = 1 := by rw [hq]; simp
      omega
    · have hlt := ih (fun y hy => h y (List.mem_cons_of_mem _ hy)) x₀ hx hq hp
      have hx' := h x (List.mem_cons_self _ _)
      by_cases hpx : p x = true
      · rw [hpx, hx' hpx]
        omega
      · rw [Bool.not_eq_true] at hpx
        have hc1 : (if p x = true then 1 else 0) = 0 := by rw [hpx]; simp
        have : (if q x = true then 1 else 0) = 0 ∨ (if q x = true then 1 else 0) = 1 := by
          cases q x <;> simp
        omega

theorem mem_allCells {i j : Nat} (hi : i < 9) (hj : j < 9) : (i, j) ∈ allCells := by
  rw [allCells]
  simp only [List.mem_flatMap, List.mem_map, List.mem_range]
  exact ⟨i, hi, j, hj, rfl⟩

theorem countEmpty_set_lt {m : List (List Nat)} (hW : Wf2 m) {i j v : Nat}
    (hi : i < 9) (hj : j < 9) (h0 : getCell m i j = 0) (hv : v ≠ 0) :
    countEmpty (setCell m i j v) < countEmpty m := by
  rw [countEmpty, countEmpty]
  refine countP_lt_of allCells ?_ (i, j) (mem_allCells hi hj) (by simp [h0]) ?_
  · intro rc _ hp
    by_cases hrc : i = rc.1 ∧ j = rc.2
    · obtain ⟨h1, h2⟩ := hrc
      rw [← h1, ← h2] at hp ⊢
      rw [show getCell (setCell m i j v) i j = v from get2_set2_eq hW hi hj v 0] at hp
      simp at hp
      exact absurd hp hv
    · rw [show getCell (setCell m i j v) rc.1 rc.2 = getCell m rc.1 rc.2 from
        get2_set2_ne m (by tauto) v 0] at hp
      exact hp
  · rw [show getCell (setCell m i j v) i j = v from get2_set2_eq hW hi hj v 0]
    simp
    exact hv

theorem countEmpty_le_81 (m : List (List Nat)) : countEmpty m ≤ 81 := by
  rw [countEmpty]
  have h := List.countP_le_length
    (p := fun rc : Nat × Nat => getCell m rc.1 rc.2 == 0) (l := allCells)
  have h81 : allCells.length = 81 := by decide
  omega

/-! ### Placement and removal preserve the invariants -/

theorem blk_lt {i j : Nat} (hi : i < 9) (hj : j < 9) : blk i j < 9 := by
  rw [blk]; omega

theorem get2_set2_cases {α : Type} (l : List (List α)) (i j r c : Nat) (v d : α) :
    get2 (set2 l i j v) r c d = get2 l r c d ∨
      ((i = r ∧ j = c) ∧ get2 (set2 l i j v) r c d = v) := by
  by_cases hij : i = r ∧ j = c
  · obtain ⟨rfl, rfl⟩ := hij
    by_cases hl : i < l.length
    · by_cases hrow : j < (l.getD i []).length
      · right
        refine ⟨⟨rfl, rfl⟩, ?_⟩
        show ((l.set i ((l.getD i []).set j v)).getD i []).getD j d = v
        rw [getD_set_eq hl, getD_set_eq hrow]
      · left
        show ((l.set i ((l.getD i []).set j v)).getD i []).getD j d = get2 l i j d
        rw [getD_set_eq hl, set_oob (by omega)]
        rfl
    · left
      show ((l.set i ((l.getD i []).set j v)).getD i []).getD j d = get2 l i j d
      rw [set_oob (l := l) (by omega)]
      rfl
  · left
    exact get2_set2_ne l (by tauto) v d

theorem getTag_setTag_true {t : List (List Bool)} {a' b' : Nat} (a b : Nat)
    (h : getTag t a' b' = true) : getTag (setTag t a b true) a' b' = true := by
  show get2 (set2 t a b true) a' b' false = true
  rcases get2_set2_cases t a b a' b' true false with hc | ⟨_, hc⟩
  · rw [hc]; exact h
  · rw [hc]

theorem getTag_setTag_ne {t : List (List Bool)} {a b a' b' : Nat}
    (h : ¬(a = a' ∧ b = b')) (v : Bool) :
    getTag (setTag t a b v) a' b' = getTag t a' b' :=
  get2_set2_ne t (by tauto) v false

/-- Unfolded form of a committed placement for a nonzero digit. -/

theorem assignCell_eq (s : SState) (i j : Nat) {v : Nat} (hv : v ≠ 0) :
    assignCell s i j v =
      ⟨setCell s.mat i j v, setTag s.tagRow i (v - 1) true,
       setTag s.tagCol (v - 1) j true, setTag s.tagBlk (blk i j) (v - 1) true⟩ := by
  unfold assignCell assignTag
  simp only [hv, if_false]

/-- A committed placement: the digit was `checkValid`, the cell empty.  The new
state keeps all invariants, extends the old matrix, and the placed value
conflicts with no filled same-unit cell of the old state. -/

theorem assignCell_props {s : SState} (hG : GoodS s) {i j v : Nat}
    (hi : i < 9) (hj : j < 9) (hv0 : v ≠ 0) (hv9 : v ≤ 9)
    (hcv : checkValid s i j v = true) (_h0 : getCell s.mat i j = 0) :
    GoodS (assignCell s i j v) ∧
    (∀ r c, getCell (assignCell s i j v).mat r c =
        if i = r ∧ j = c then v else getCell s.mat r c) ∧
    (∀ r' c', r' < 9 → c' < 9 → ¬(i = r' ∧ j = c') → SameUnit i j r' c' →
        getCell s.mat r' c' ≠ v) := by
  obtain ⟨⟨hWm, hWr, hWc, hWb⟩, hI, hV⟩ := hG
  obtain ⟨ht1, ht2, ht3⟩ := checkValid_elim hcv
  have hv1 : 1 ≤ v := Nat.one_le_iff_ne_zero.mpr hv0
  have hpoint : ∀ r c, getCell (assignCell s i j v).mat r c =
      if i = r ∧ j = c then v else getCell s.mat r c := by
    intro r c
    rw [assignCell_mat]
    by_cases hrc : i = r ∧ j = c
    · obtain ⟨rfl, rfl⟩ := hrc
      rw [if_pos ⟨rfl, rfl⟩]
      exact get2_set2_eq hWm hi hj v 0
    · rw [if_neg hrc]
      exact get2_set2_ne s.mat (by tauto) v 0
  have hexcl : ∀ r' c', r' < 9 → c' < 9 → ¬(i = r' ∧ j = c') → SameUnit i j r' c' →
      getCell s.mat r' c' ≠ v := by
    intro r' c' hr' hc' _ hsu hval
    have h0' : getCell s.mat r' c' ≠ 0 := by rw [hval]; exact hv0
    obtain ⟨hr1, hr2, hr3⟩ := hI r' hr' c' hc' h0'
    rw [hval] at hr1 hr2 hr3
    rcases hsu with h | h | h
    · rw [← h] at hr1
      rw [hr1] at ht1
      simp at ht1
    · rw [← h] at hr2
      rw [hr2] at ht2
      simp at ht2
    · rw [← h] at hr3
      rw [hr3] at ht3
      simp at ht3
  refine ⟨⟨?_, ?_, ?_⟩, hpoint, hexcl⟩
  · rw [assignCell_eq s i j hv0]
    exact ⟨hWm.set2 i j v, hWr.set2 _ _ _, hWc.set2 _ _ _, hWb.set2 _ _ _⟩
  · -- InvTags of the new state
    have hTr : (assignCell s i j v).tagRow = setTag s.tagRow i (v - 1) true := by
      rw [assignCell_eq s i j hv0]
    have hTc : (assignCell s i j v).tagCol = setTag s.tagCol (v - 1) j true := by
      rw [assignCell_eq s i j hv0]
    have hTb : (assignCell s i j v).tagBlk = setTag s.tagBlk (blk i j) (v - 1) true := by
      rw [assignCell_eq s i j hv0]
    intro r hr c hc hne
    rw [hpoint r c] at hne ⊢
    rw [hTr, hTc, hTb]
    by_cases hrc : i = r ∧ j = c
    · obtain ⟨rfl, rfl⟩ := hrc
      rw [if_pos ⟨rfl, rfl⟩]
      refine ⟨?_, ?_, ?_⟩
      · exact get2_set2_eq hWr hi (by omega) true false
      · exact get2_set2_eq hWc (by omega) hj true false
      · exact get2_set2_eq hWb (blk_lt hi hj) (by omega) true false
    · rw [if_neg hrc] at hne ⊢
      obtain ⟨o1, o2, o3⟩ := hI r hr c hc hne
      exact ⟨getTag_setTag_true _ _ o1, getTag_setTag_true _ _ o2,
        getTag_setTag_true _ _ o3⟩
  · -- values stay at most 9
    intro r hr c hc
    rw [hpoint r c]
    by_cases hrc : i = r ∧ j = c
    · rw [if_pos hrc]; exact hv9
    · rw [if_neg hrc]; exact hV r hr c hc

/-- ExtendsM and NoNewDup for a single committed placement. -/

theorem assignCell_step {s : SState} (hG : GoodS s) {i j v : Nat}
    (hi : i < 9) (hj : j < 9) (hv0 : v ≠ 0) (hv9 : v ≤ 9)
    (hcv : checkValid s i j v = true) (h0 : getCell s.mat i j = 0) :
    ExtendsM s.mat (assignCell s i j v).mat ∧
    NoNewDup s.mat (assignCell s i j v).mat := by
  obtain ⟨-, hpoint, hexcl⟩ := assignCell_props hG hi hj hv0 hv9 hcv h0
  constructor
  · intro r hr c hc hne
    rw [hpoint r c]
    by_cases hrc : i = r ∧ j = c
    · obtain ⟨rfl, rfl⟩ := hrc
      exact absurd h0 hne
    · rw [if_neg hrc]
  · intro r hr c hc r' hr' c' hc' hne hsu hz he
    rw [hpoint r c] at hz he
    rw [hpoint r' c'] at he
    by_cases h1 : i = r ∧ j = c
    · obtain ⟨rfl, rfl⟩ := h1
      rw [if_pos ⟨rfl, rfl⟩] at hz he
      have h2 : ¬(i = r' ∧ j = c') := by tauto
      rw [if_neg h2] at he
      exact absurd he.symm (hexcl r' c' hr' hc' h2 hsu)
    · rw [if_neg h1] at hz he
      by_cases h2 : i = r' ∧ j = c'
      · obtain ⟨rfl, rfl⟩ := h2
        rw [if_pos ⟨rfl, rfl⟩] at he
        have hsu' : SameUnit i j r c := by
          rcases hsu with h | h | h
          · exact Or.inl h.symm
          · exact Or.inr (Or.inl h.symm)
          · exact Or.inr (Or.inr h.symm)
        exact absurd he (hexcl r c hr hc h1 hsu')
      · rw [if_neg h2] at he
        exact ⟨hz, by rw [← he]; exact hz⟩

/-- Removing a filled cell preserves the tracker invariant, assuming the
uniqueness half (`NoDups`) holds: no other filled same-unit cell needs the
cleared flags. -/

theorem unplaceCell_props {s : SState} (hG : GoodS s) (hD : NoDups s.mat)
    {i j : Nat} (hi : i < 9) (hj : j < 9) :
    GoodS (unplaceCell s i j (getCell s.mat i j)) ∧
    NoDups (unplaceCell s i j (getCell s.mat i j)).mat := by
  obtain ⟨⟨hWm, hWr, hWc, hWb⟩, hI, hV⟩ := hG
  set v := getCell s.mat i j with hvdef
  by_cases hv0 : v = 0
  · have hstate : unplaceCell s i j v = s := by
      unfold unplaceCell resetTag
      rw [if_pos hv0]
      refine stateExt ?_ rfl rfl rfl
      exact set2_self (hv0 ▸ hvdef.symm)
    rw [hstate]
    exact ⟨⟨⟨hWm, hWr, hWc, hWb⟩, hI, hV⟩, hD⟩
  · have hv9 : v ≤ 9 := hV i hi j hj
    have hmat : (unplaceCell s i j v).mat = setCell s.mat i j 0 := by
      show setCell (resetTag s i j v).mat i j 0 = setCell s.mat i j 0
      rw [resetTag_mat]
    have htags : (unplaceCell s i j v).tagRow = setTag s.tagRow i (v - 1) false ∧
        (unplaceCell s i j v).tagCol = setTag s.tagCol (v - 1) j false ∧
        (unplaceCell s i j v).tagBlk = setTag s.tagBlk (blk i j) (v - 1) false := by
      refine ⟨?_, ?_, ?_⟩
      · show (resetTag s i j v).tagRow = _
        unfold resetTag
        rw [if_neg hv0]
      · show (resetTag s i j v).tagCol = _
        unfold resetTag
        rw [if_neg hv0]
      · show (resetTag s i j v).tagBlk = _
        unfold resetTag
        rw [if_neg hv0]
    have hpoint : ∀ r c, getCell (unplaceCell s i j v).mat r c =
        if i = r ∧ j = c then 0 else getCell s.mat r c := by
      intro r c
      rw [hmat]
      by_cases hrc : i = r ∧ j = c
      · obtain ⟨rfl, rfl⟩ := hrc
        rw [if_pos ⟨rfl, rfl⟩]
        exact get2_set2_eq hWm hi hj 0 0
      · rw [if_neg hrc]
        exact get2_set2_ne s.mat (by tauto) 0 0
    refine ⟨⟨⟨?_, ?_, ?_, ?_⟩, ?_, ?_⟩, ?_⟩
    · rw [hmat]; exact hWm.set2 i j 0
    · rw [htags.1]; exact hWr.set2 _ _ _
    · rw [htags.2.1]; exact hWc.set2 _ _ _
    · rw [htags.2.2]; exact hWb.set2 _ _ _
    · -- InvTags after removal
      intro r hr c hc hne
      rw [hpoint r c] at hne ⊢
      by_cases hrc : i = r ∧ j = c
      · rw [if_pos hrc] at hne
        exact absurd rfl hne
      · rw [if_neg hrc] at hne ⊢
        obtain ⟨o1, o2, o3⟩ := hI r hr c hc hne
        set w := getCell s.mat r c with hw
        have hw0 : w ≠ 0 := hne
        have hw9 : w ≤ 9 := hV r hr c hc
        rw [htags.1, htags.2.1, htags.2.2]
        have hvne : getCell s.mat i j ≠ 0 := by rw [← hvdef]; exact hv0
        refine ⟨?_, ?_, ?_⟩
        · -- the cleared row flag (i, v-1) is not this cell's row flag
          rw [getTag_setTag_ne ?_ false]
          · exact o1
          · rintro ⟨hir, hwv⟩
            have hwv' : w = v := by omega
            refine hD i hi j hj r hr c hc hrc (Or.inl hir) hvne ?_
            rw [← hvdef, ← hw, hwv']
        · rw [getTag_setTag_ne ?_ false]
          · exact o2
          · rintro ⟨hwv, hjc⟩
            have hwv' : w = v := by omega
            refine hD i hi j hj r hr c hc hrc (Or.inr (Or.inl hjc)) hvne ?_
            rw [← hvdef, ← hw, hwv']
        · rw [getTag_setTag_ne ?_ false]
          · exact o3
          · rintro ⟨hblk, hwv⟩
            have hwv' : w = v := by omega
            refine hD i hi j hj r hr c hc hrc (Or.inr (Or.inr hblk)) hvne ?_
            rw [← hvdef, ← hw, hwv']
    · -- values stay at most 9
      intro r hr c hc
      rw [hpoint r c]
      by_cases hrc : i = r ∧ j = c
      · rw [if_pos hrc]; omega
      · rw [if_neg hrc]; exact hV r hr c hc
    · -- NoDups after removal
      intro r hr c hc r' hr' c' hc' hne hsu hz he
      rw [hpoint r c] at hz he
      rw [hpoint r' c'] at he
      by_cases h1 : i = r ∧ j = c
      · rw [if_pos h1] at hz
        exact absurd rfl hz
      · rw [if_neg h1] at hz he
        by_cases h2 : i = r' ∧ j = c'
        · rw [if_pos h2] at he
          exact absurd he hz
        · rw [if_neg h2] at he
          exact hD r hr c hc r' hr' c' hc' hne hsu hz he

theorem countAccept_aux (s : SState) (l : Nat) :
    ∀ (cells : List (Nat × Nat)) (acc : Nat × Nat × Nat),
      (cells.foldl
        (fun acc rc =>
          if getCell s.mat rc.1 rc.2 > 0 then acc
          else if checkValid s rc.1 rc.2 l then (acc.1 + 1, rc.1, rc.2) else acc)
        acc).1 = acc.1 + (cells.filter (acceptsB s l)).length ∧
      ((cells.filter (acceptsB s l) = [] ∧
        cells.foldl
          (fun acc rc =>
            if getCell s.mat rc.1 rc.2 > 0 then acc
            else if checkValid s rc.1 rc.2 l then (acc.1 + 1, rc.1, rc.2) else acc)
          acc = acc) ∨
       (((cells.foldl
          (fun acc rc =>
            if getCell s.mat rc.1 rc.2 > 0 then acc
            else if checkValid s rc.1 rc.2 l then (acc.1 + 1, rc.1, rc.2) else acc)
          acc).2.1,
         (cells.foldl
          (fun acc rc =>
            if getCell s.mat rc.1 rc.2 > 0 then acc
            else if checkValid s rc.1 rc.2 l then (acc.1 + 1, rc.1, rc.2) else acc)
          acc).2.2) ∈ cells.filter (acceptsB s l))) := by
  intro cells
  induction cells with
  | nil => intro acc; exact ⟨rfl, Or.inl ⟨rfl, rfl⟩⟩
  | cons rc rest ih =>
    intro acc
    by_cases hacc : acceptsB s l rc = true
    · have h0 : getCell s.mat rc.1 rc.2 = 0 := by
        have := hacc
        rw [acceptsB, Bool.and_eq_true, decide_eq_true_iff] at this
        exact this.1
      have hcv : checkValid s rc.1 rc.2 l = true := by
        have := hacc
        rw [acceptsB, Bool.and_eq_true] at this
        exact this.2
      have hstep : (List.foldl
          (fun acc rc =>
            if getCell s.mat rc.1 rc.2 > 0 then acc
            else if checkValid s rc.1 rc.2 l then (acc.1 + 1, rc.1, rc.2) else acc)
          acc (rc :: rest)) = (List.foldl
          (fun acc rc =>
            if getCell s.mat rc.1 rc.2 > 0 then acc
            else if checkValid s rc.1 rc.2 l then (acc.1 + 1, rc.1, rc.2) else acc)
          (acc.1 + 1, rc.1, rc.2) rest) := by
        rw [List.foldl_cons]
        have : ¬(getCell s.mat rc.1 rc.2 > 0) := by omega
        rw [if_neg this, if_pos hcv]
      have hfil : (rc :: rest).filter (acceptsB s l) = rc :: rest.filter (acceptsB s l) := by
        rw [List.filter_cons_of_pos hacc]
      obtain ⟨ihc, ihd⟩ := ih (acc.1 + 1, rc.1, rc.2)
      constructor
      · rw [hstep, ihc, hfil]
        simp only [List.length_cons]
        omega
      · right
        rw [hstep, hfil]
        rcases ihd with ⟨hfe, hid⟩ | hmem
        · rw [hfe] at *
          rw [hid]
          exact List.mem_cons_self _ _
        · exact List.mem_cons_of_mem _ hmem
    · have hskip : ∀ a : Nat × Nat × Nat,
          (if getCell s.mat rc.1 rc.2 > 0 then a
           else if checkValid s rc.1 rc.2 l then (a.1 + 1, rc.1, rc.2) else a) = a := by
        intro a
        rw [acceptsB, Bool.and_eq_true] at hacc
        by_cases h0 : getCell s.mat rc.1 rc.2 > 0
        · rw [if_pos h0]
        · rw [if_neg h0]
          have : checkValid s rc.1 rc.2 l ≠ true := by
            intro hcv
            exact hacc ⟨by simp; omega, hcv⟩
          rw [if_neg this]
      have hfil : (rc :: rest).filter (acceptsB s l) = rest.filter (acceptsB s l) := by
        rw [List.filter_cons_of_neg (by simpa using hacc)]
      obtain ⟨ihc, ihd⟩ := ih acc
      constructor
      · rw [List.foldl_cons, hskip, ihc, hfil]
      · rw [List.foldl_cons, hskip, hfil]
        rcases ihd with ⟨hfe, hid⟩ | hmem
        · exact Or.inl ⟨hfe, hid⟩
        · exact Or.inr hmem

/-- `cnt` computed by a counting loop is the number of empty accepting cells of
the unit, and when `cnt ≥ 1` the recorded `(row, col)` is one of them. -/

theorem countAccept_spec (s : SState) (cells : List (Nat × Nat)) (l : Nat) :
    (countAccept s cells l).1 = (cells.filter (acceptsB s l)).length ∧
    ((countAccept s cells l).1 ≠ 0 →
      ((countAccept s cells l).2.1, (countAccept s cells l).2.2) ∈ cells ∧
      getCell s.mat (countAccept s cells l).2.1 (countAccept s cells l).2.2 = 0 ∧
      checkValid s (countAccept s cells l).2.1 (countAccept s cells l).2.2 l = true) := by
  obtain ⟨hc, hd⟩ := countAccept_aux s l cells (0, 0, 0)
  constructor
  · rw [countAccept, hc]
    simp
  · intro hne
    rcases hd with ⟨hfe, _⟩ | hmem
    · rw [countAccept, hc, hfe] at hne
      simp at hne
    · have hm := List.mem_filter.mp hmem
      have ha := hm.2
      rw [acceptsB, Bool.and_eq_true, decide_eq_true_iff] at ha
      exact ⟨hm.1, ha.1, ha.2⟩

theorem prog_refl (p : SState × Bool) : Prog p p :=
  ⟨extendsM_refl _, noNewDup_refl _, Or.inl rfl⟩

theorem prog_trans {p q r : SState × Bool} (h1 : Prog p q) (h2 : Prog q r) :
    Prog p r := by
  obtain ⟨e1, n1, d1⟩ := h1
  obtain ⟨e2, n2, d2⟩ := h2
  refine ⟨extendsM_trans e1 e2, noNewDup_trans n1 e2 n2, ?_⟩
  rcases d1 with rfl | ⟨f1, c1⟩
  · exact d2
  · rcases d2 with rfl | ⟨f2, c2⟩
    · exact Or.inr ⟨f1, c1⟩
    · exact Or.inr ⟨f2, by omega⟩

theorem scanStep_props {p : SState × Bool} (hG : GoodS p.1) {cells : List (Nat × Nat)}
    {l : Nat} (hcells : ∀ rc ∈ cells, rc.1 < 9 ∧ rc.2 < 9) (hl0 : l ≠ 0) (hl9 : l ≤ 9) :
    GoodS (scanStep cells p l).1 ∧ Prog p (scanStep cells p l) := by
  rw [scanStep]
  by_cases hcnt : (countAccept p.1 cells l).1 = 1
  · rw [if_pos hcnt]
    obtain ⟨hmem, h0, hcv⟩ := (countAccept_spec p.1 cells l).2 (by omega)
    obtain ⟨hr9, hc9⟩ := hcells _ hmem
    have hGn := (assignCell_props hG hr9 hc9 hl0 hl9 hcv h0).1
    obtain ⟨hE, hN⟩ := assignCell_step hG hr9 hc9 hl0 hl9 hcv h0
    refine ⟨hGn, hE, hN, Or.inr ⟨rfl, ?_⟩⟩
    show countEmpty (assignCell p.1 _ _ l).mat < countEmpty p.1.mat
    rw [assignCell_mat]
    exact countEmpty_set_lt hG.1.1 hr9 hc9 h0 hl0
  · rw [if_neg hcnt]
    exact ⟨hG, prog_refl p⟩

theorem scanDigits_props {cells : List (Nat × Nat)}
    (hcells : ∀ rc ∈ cells, rc.1 < 9 ∧ rc.2 < 9) :
    ∀ (digits : List Nat), (∀ l ∈ digits, l ≠ 0 ∧ l ≤ 9) →
      ∀ p : SState × Bool, GoodS p.1 →
      GoodS (digits.foldl (fun q l => scanStep cells q l) p).1 ∧
      Prog p (digits.foldl (fun q l => scanStep cells q l) p) := by
  intro digits
  induction digits with
  | nil => intro _ p hG; exact ⟨hG, prog_refl p⟩
  | cons l rest ih =>
    intro hdig p hG
    rw [List.foldl_cons]
    obtain ⟨hl0, hl9⟩ := hdig l (List.mem_cons_self _ _)
    obtain ⟨hG1, hP1⟩ := scanStep_props hG hcells hl0 hl9
    obtain ⟨hG2, hP2⟩ := ih (fun x hx => hdig x (List.mem_cons_of_mem _ hx)) _ hG1
    exact ⟨hG2, prog_trans hP1 hP2⟩

theorem scanUnits_aux {unitCells : Nat → List (Nat × Nat)}
    {digits : List Nat} (hdig : ∀ l ∈ digits, l ≠ 0 ∧ l ≤ 9) :
    ∀ (ks : List Nat), (∀ k ∈ ks, ∀ rc ∈ unitCells k, rc.1 < 9 ∧ rc.2 < 9) →
      ∀ p : SState × Bool, GoodS p.1 →
      GoodS (ks.foldl (fun q k => digits.foldl (fun q2 l => scanStep (unitCells k) q2 l) q) p).1 ∧
      Prog p (ks.foldl (fun q k => digits.foldl (fun q2 l => scanStep (unitCells k) q2 l) q) p) := by
  intro ks
  induction ks with
  | nil => intro _ p hG; exact ⟨hG, prog_refl p⟩
  | cons k rest ih =>
    intro hks p hG
    rw [List.foldl_cons]
    obtain ⟨hG1, hP1⟩ := scanDigits_props (hks k (List.mem_cons_self _ _)) digits hdig p hG
    obtain ⟨hG2, hP2⟩ := ih (fun x hx => hks x (List.mem_cons_of_mem _ hx)) _ hG1
    exact ⟨hG2, prog_trans hP1 hP2⟩

theorem scanUnits_props {unitCells : Nat → List (Nat × Nat)}
    (hU : ∀ k, k < 9 → ∀ rc ∈ unitCells k, rc.1 < 9 ∧ rc.2 < 9)
    {digits : List Nat} (hdig : ∀ l ∈ digits, l ≠ 0 ∧ l ≤ 9)
    (p : SState × Bool) (hG : GoodS p.1) :
    GoodS (scanUnits unitCells digits p).1 ∧ Prog p (scanUnits unitCells digits p) := by
  rw [scanUnits]
  exact scanUnits_aux hdig (List.range 9)
    (fun k hk => hU k (List.mem_range.mp hk)) p hG

theorem blockCells_bounds : ∀ k, k < 9 → ∀ rc ∈ blockCells k, rc.1 < 9 ∧ rc.2 < 9 := by
  intro k hk rc hrc
  rw [blockCells] at hrc
  simp only [List.mem_flatMap, List.mem_map, List.mem_range] at hrc
  obtain ⟨a, ha, b, hb, rfl⟩ := hrc
  constructor <;> simp <;> omega

theorem rowUnitCells_bounds : ∀ k, k < 9 → ∀ rc ∈ rowUnitCells k, rc.1 < 9 ∧ rc.2 < 9 := by
  intro k hk rc hrc
  rw [rowUnitCells] at hrc
  simp only [List.mem_map, List.mem_range] at hrc
  obtain ⟨j, hj, rfl⟩ := hrc
  exact ⟨hk, hj⟩

theorem colUnitCells_bounds : ∀ k, k < 9 → ∀ rc ∈ colUnitCells k, rc.1 < 9 ∧ rc.2 < 9 := by
  intro k hk rc hrc
  rw [colUnitCells] at hrc
  simp only [List.mem_map, List.mem_range] at hrc
  obtain ⟨j, hj, rfl⟩ := hrc
  exact ⟨hj, hk⟩

theorem digitsAll_bounds : ∀ l ∈ digitsAll, l ≠ 0 ∧ l ≤ 9 := by decide

theorem digitsRC_bounds : ∀ l ∈ digitsRC, l ≠ 0 ∧ l ≤ 9 := by decide

theorem logicalIter_props {s : SState} (hG : GoodS s) :
    GoodS (logicalIter s).1 ∧
    ExtendsM s.mat (logicalIter s).1.mat ∧ NoNewDup s.mat (logicalIter s).1.mat ∧
    ((logicalIter s).2 = false → (logicalIter s).1 = s) ∧
    ((logicalIter s).2 = true → countEmpty (logicalIter s).1.mat < countEmpty s.mat) := by
  have h1 := scanUnits_props blockCells_bounds digitsAll_bounds (s, false) hG
  have h2 := scanUnits_props rowUnitCells_bounds digitsRC_bounds _ h1.1
  have h3 := scanUnits_props colUnitCells_bounds digitsRC_bounds _ h2.1
  have hiter : logicalIter s =
      scanUnits colUnitCells digitsRC
        (scanUnits rowUnitCells digitsRC
          (scanUnits blockCells digitsAll (s, false))) := rfl
  have hP : Prog (s, false) (logicalIter s) := by
    rw [hiter]
    exact prog_trans h1.2 (prog_trans h2.2 h3.2)
  have hGf : GoodS (logicalIter s).1 := by rw [hiter]; exact h3.1
  obtain ⟨hE, hN, hd⟩ := hP
  refine ⟨hGf, hE, hN, ?_, ?_⟩
  · intro hfalse
    rcases hd with heq | ⟨htrue, _⟩
    · rw [heq]
    · rw [hfalse] at htrue
      exact absurd htrue (by simp)
  · intro htrue
    rcases hd with heq | ⟨_, hlt⟩
    · have : (logicalIter s).2 = false := by rw [heq]
      rw [htrue] at this
      exact absurd this (by simp)
    · exact hlt

theorem solveLogicalF_succ (fuel : Nat) (s : SState) : solveLogicalF (fuel + 1) s =
    if (logicalIter s).2 then solveLogicalF fuel (logicalIter s).1
    else (logicalIter s).1 := rfl

theorem solveLogicalF_props : ∀ (fuel : Nat) (s : SState), GoodS s →
    GoodS (solveLogicalF fuel s) ∧ ExtendsM s.mat (solveLogicalF fuel s).mat ∧
    NoNewDup s.mat (solveLogicalF fuel s).mat := by
  intro fuel
  induction fuel with
  | zero => intro s hG; exact ⟨hG, extendsM_refl _, noNewDup_refl _⟩
  | succ f ih =>
    intro s hG
    rw [solveLogicalF_succ]
    obtain ⟨hGi, hE, hN, _, _⟩ := logicalIter_props hG
    cases hb : (logicalIter s).2 with
    | false => rw [if_neg (by simp)]; exact ⟨hGi, hE, hN⟩
    | true =>
      rw [if_pos rfl]
      obtain ⟨hG2, hE2, hN2⟩ := ih (logicalIter s).1 hGi
      exact ⟨hG2, extendsM_trans hE hE2, noNewDup_trans hN hE2 hN2⟩

theorem solveLogicalF_fix : ∀ (fuel : Nat) (s : SState), GoodS s →
    countEmpty s.mat < fuel →
    logicalIter (solveLogicalF fuel s) = (solveLogicalF fuel s, false) := by
  intro fuel
  induction fuel with
  | zero => intro s _ h; omega
  | succ f ih =>
    intro s hG hcnt
    rw [solveLogicalF_succ]
    obtain ⟨hGi, _, _, hid, hlt⟩ := logicalIter_props hG
    cases hb : (logicalIter s).2 with
    | false =>
      rw [if_neg (by simp)]
      have h1 := hid hb
      rw [h1, Prod.ext_iff]
      exact ⟨h1, hb⟩
    | true =>
      rw [if_pos rfl]
      exact ih (logicalIter s).1 hGi (by have := hlt hb; omega)

theorem posFilled_mono {m : List (List Nat)} {p q : Nat} (h : q ≤ p)
    (hq : PosFilled m q) : PosFilled m p :=
  fun r hr c hc hpos => hq r hr c hc (by omega)

theorem posFilled_extend {m : List (List Nat)} {i j : Nat} (hi : i < 9)
    (hp : PosFilled m (9 * j + i + 1)) (hcell : getCell m i j ≠ 0) :
    PosFilled m (9 * j + i) := by
  intro r hr c hc hpos
  by_cases he : 9 * c + r = 9 * j + i
  · have hrc : r = i ∧ c = j := by omega
    obtain ⟨rfl, rfl⟩ := hrc
    exact hcell
  · exact hp r hr c hc (by omega)

theorem tryVals_sound
    (rec : SState → Option (SState × Bool)) (i j : Nat)
    (hrecR : ∀ u t, Wf2 u.mat → rec u = some (t, false) → t = u)
    (hrecS : ∀ u t, GoodS u → rec u = some (t, true) →
        GoodS t ∧ ExtendsM u.mat t.mat ∧ NoNewDup u.mat t.mat ∧
        PosFilled t.mat (9 * j + i + 1))
    (s : SState) (hG : GoodS s) (hi : i < 9) (hj : j < 9)
    (h0 : getCell s.mat i j = 0) :
    ∀ vals, (∀ v ∈ vals, v ≠ 0 ∧ v ≤ 9) → ∀ w, LoopVal s i j w →
      ∀ t, tryVals rec (cellSet s i j w) i j vals = some (t, true) →
        GoodS t ∧ ExtendsM s.mat t.mat ∧ NoNewDup s.mat t.mat ∧
        PosFilled t.mat (9 * j + i) := by
  intro vals
  induction vals with
  | nil =>
    intro _ w _ t heq
    simp only [tryVals, Option.some_inj] at heq
    exact absurd (congrArg Prod.snd heq) (by simp)
  | cons v rest ih =>
    intro hvals w hw t heq
    obtain ⟨hv0, hv9⟩ := hvals v (List.mem_cons_self _ _)
    have hrest := fun x hx => hvals x (List.mem_cons_of_mem _ hx)
    simp only [tryVals, checkValid_cellSet] at heq
    by_cases hcv : checkValid s i j v = true
    · rw [if_pos hcv, assignCell_cellSet] at heq
      have hGu := (assignCell_props hG hi hj hv0 hv9 hcv h0).1
      have hstep := assignCell_step hG hi hj hv0 hv9 hcv h0
      cases hr : rec (assignCell s i j v) with
      | none => rw [hr] at heq; exact absurd heq (by simp)
      | some p =>
        obtain ⟨t', b'⟩ := p
        cases b' with
        | true =>
          rw [hr] at heq
          simp only [Option.some_inj] at heq
          have ht : t' = t := congrArg Prod.fst heq
          subst ht
          obtain ⟨hGt, hEt, hNt, hPt⟩ := hrecS _ _ hGu hr
          refine ⟨hGt, extendsM_trans hstep.1 hEt,
            noNewDup_trans hstep.2 hEt hNt, posFilled_extend hi hPt ?_⟩
          have hcell : getCell (assignCell s i j v).mat i j = v :=
            getCell_assignCell hG.1.1 hi hj v
          rw [hEt i hi j hj (by rw [hcell]; exact hv0), hcell]
          exact hv0
        | false =>
          rw [hr] at heq
          simp only at heq
          have ht' : t' = assignCell s i j v :=
            hrecR _ _ (wf2_assignCell_mat hG.1.1 i j v) hr
          subst ht'
          rw [getCell_assignCell hG.1.1 hi hj v, resetTag_assignCell hv0 hcv] at heq
          exact ih hrest v (Or.inr ⟨hv0, hcv⟩) t heq
    · rw [if_neg hcv] at heq
      exact ih hrest w hw t heq

/-- Helper: a successful `solveBacktrackF` run keeps the invariants, only adds
checkValid-certified values to empty cells, and fills everything from the
starting position on. -/

theorem sb_sound : ∀ (fuel : Nat) (s : SState) (i j : Nat) (t : SState),
    GoodS s → i ≤ 9 → j ≤ 8 →
    solveBacktrackF fuel s i j = some (t, true) →
    GoodS t ∧ ExtendsM s.mat t.mat ∧ NoNewDup s.mat t.mat ∧
    PosFilled t.mat (9 * j + i) := by
  intro fuel
  induction fuel with
  | zero => intro s i j t _ _ _ heq; exact absurd heq (by simp [solveBacktrackF])
  | succ f ih =>
    intro s i j t hG hi hj heq
    rw [solveBacktrackF] at heq
    by_cases h9 : i = 9
    · subst h9
      rw [if_pos rfl] at heq
      by_cases hj9 : j + 1 = 9
      · rw [if_pos hj9, Option.some_inj] at heq
        have ht : s = t := congrArg Prod.fst heq
        subst ht
        refine ⟨hG, extendsM_refl _, noNewDup_refl _, ?_⟩
        intro r hr c hc hpos
        exact absurd hpos (by omega)
      · rw [if_neg hj9] at heq
        by_cases hfill : getCell s.mat 0 (j + 1) > 0
        · rw [if_pos hfill] at heq
          obtain ⟨hGt, hEt, hNt, hPt⟩ := ih s 1 (j + 1) t hG (by omega) (by omega) heq
          refine ⟨hGt, hEt, hNt, posFilled_mono (by omega)
            (posFilled_extend (i := 0) (j := j + 1) (by omega) hPt ?_)⟩
          rw [hEt 0 (by omega) (j + 1) (by omega) (by omega)]
          omega
        · rw [if_neg hfill] at heq
          have h0 : getCell s.mat 0 (j + 1) = 0 := by omega
          rw [← cellSet_zero h0] at heq
          have hrl := tryVals_sound _ 0 (j + 1)
            (fun u t' hWu h => sb_restore f u 1 (j + 1) t' hWu (by omega) (by omega) h)
            (fun u t' hGu h => ih u 1 (j + 1) t' hGu (by omega) (by omega) h)
            s hG (by omega) (by omega) h0 digitsAll (by decide) 0 (Or.inl rfl) t heq
          exact ⟨hrl.1, hrl.2.1, hrl.2.2.1, posFilled_mono (by omega) hrl.2.2.2⟩
    · rw [if_neg h9] at heq
      have hi8 : i < 9 := by omega
      by_cases hfill : getCell s.mat i j > 0
      · rw [if_pos hfill] at heq
        obtain ⟨hGt, hEt, hNt, hPt⟩ := ih s (i + 1) j t hG (by omega) hj heq
        refine ⟨hGt, hEt, hNt, posFilled_extend hi8 hPt ?_⟩
        rw [hEt i hi8 j (by omega) (by omega)]
        omega
      · rw [if_neg hfill] at heq
        have h0 : getCell s.mat i j = 0 := by omega
        rw [← cellSet_zero h0] at heq
        exact tryVals_sound _ i j
          (fun u t' hWu h => sb_restore f u (i + 1) j t' hWu (by omega) hj h)
          (fun u t' hGu h => ih u (i + 1) j t' hGu (by omega) hj h)
          s hG hi8 (by omega) h0 digitsAll (by decide) 0 (Or.inl rfl) t heq

theorem tryVals_total (rec : SState → Option (SState × Bool))
    (hrec : ∀ u, rec u ≠ none) (i j : Nat) :
    ∀ (vals : List Nat) (s : SState), tryVals rec s i j vals ≠ none := by
  intro vals
  induction vals with
  | nil => intro s; simp [tryVals]
  | cons v rest ih =>
    intro s
    simp only [tryVals]
    by_cases hcv : checkValid s i j v = true
    · rw [if_pos hcv]
      cases hr : rec (assignCell s i j v) with
      | none => exact absurd hr (hrec _)
      | some p =>
        obtain ⟨t, b⟩ := p
        cases b
        · exact ih _
        · simp
    · rw [if_neg hcv]
      exact ih _

/-- Helper: fuel 83 - position suffices, so the embedding's fuel never runs
out from an in-range start: the recursion of `solveBacktrack` nests one call
per traversal position. -/

theorem sb_total : ∀ (fuel : Nat) (s : SState) (i j : Nat), i ≤ 9 → j ≤ 8 →
    83 - (9 * j + i) ≤ fuel → solveBacktrackF fuel s i j ≠ none := by
  intro fuel
  induction fuel with
  | zero => intro s i j hi hj hf; omega
  | succ f ih =>
    intro s i j hi hj hf
    rw [solveBacktrackF]
    by_cases h9 : i = 9
    · subst h9
      rw [if_pos rfl]
      by_cases hj9 : j + 1 = 9
      · rw [if_pos hj9]; simp
      · rw [if_neg hj9]
        by_cases hfill : getCell s.mat 0 (j + 1) > 0
        · rw [if_pos hfill]
          exact ih s 1 (j + 1) (by omega) (by omega) (by omega)
        · rw [if_neg hfill]
          exact tryVals_total _ (fun u => ih u 1 (j + 1) (by omega) (by omega) (by omega))
            0 (j + 1) digitsAll s
    · rw [if_neg h9]
      by_cases hfill : getCell s.mat i j > 0
      · rw [if_pos hfill]
        exact ih s (i + 1) j (by omega) hj (by omega)
      · rw [if_neg hfill]
        exact tryVals_total _ (fun u => ih u (i + 1) j (by omega) hj (by omega))
          i j digitsAll s

/-! ### The constructor establishes the invariants -/

theorem assignTag_wf {s : SState} (hW : WfS s) (i j n : Nat) :
    WfS (assignTag s i j n) := by
  unfold assignTag
  split
  · exact hW
  · exact ⟨hW.1, hW.2.1.set2 _ _ _, hW.2.2.1.set2 _ _ _, hW.2.2.2.set2 _ _ _⟩

theorem assignTag_mono {s : SState} (i j n : Nat) :
    (∀ a b, getTag s.tagRow a b = true → getTag (assignTag s i j n).tagRow a b = true) ∧
    (∀ a b, getTag s.tagCol a b = true → getTag (assignTag s i j n).tagCol a b = true) ∧
    (∀ a b, getTag s.tagBlk a b = true → getTag (assignTag s i j n).tagBlk a b = true) := by
  unfold assignTag
  split
  · exact ⟨fun _ _ h => h, fun _ _ h => h, fun _ _ h => h⟩
  · exact ⟨fun a b h => getTag_setTag_true _ _ h, fun a b h => getTag_setTag_true _ _ h,
      fun a b h => getTag_setTag_true _ _ h⟩

theorem assignTag_self {s : SState} (hW : WfS s) {i j n : Nat} (hi : i < 9) (hj : j < 9)
    (hn0 : n ≠ 0) (hn9 : n ≤ 9) :
    getTag (assignTag s i j n).tagRow i (n - 1) = true ∧
    getTag (assignTag s i j n).tagCol (n - 1) j = true ∧
    getTag (assignTag s i j n).tagBlk (blk i j) (n - 1) = true := by
  unfold assignTag
  rw [if_neg hn0]
  refine ⟨?_, ?_, ?_⟩
  · exact get2_set2_eq hW.2.1 hi (by omega) true false
  · exact get2_set2_eq hW.2.2.1 (by omega) hj true false
  · exact get2_set2_eq hW.2.2.2 (blk_lt hi hj) (by omega) true false

theorem fillTags_fold : ∀ (cells : List (Nat × Nat)) (s : SState), WfS s →
    ValLe9 s.mat → (∀ rc ∈ cells, rc.1 < 9 ∧ rc.2 < 9) →
    (cells.foldl (fun t rc => assignTag t rc.1 rc.2 (getCell t.mat rc.1 rc.2)) s).mat
        = s.mat ∧
    WfS (cells.foldl (fun t rc => assignTag t rc.1 rc.2 (getCell t.mat rc.1 rc.2)) s) ∧
    (∀ rc ∈ cells, getCell s.mat rc.1 rc.2 ≠ 0 →
      getTag (cells.foldl (fun t rc => assignTag t rc.1 rc.2 (getCell t.mat rc.1 rc.2))
          s).tagRow rc.1 (getCell s.mat rc.1 rc.2 - 1) = true ∧
      getTag (cells.foldl (fun t rc => assignTag t rc.1 rc.2 (getCell t.mat rc.1 rc.2))
          s).tagCol (getCell s.mat rc.1 rc.2 - 1) rc.2 = true ∧
      getTag (cells.foldl (fun t rc => assignTag t rc.1 rc.2 (getCell t.mat rc.1 rc.2))
          s).tagBlk (blk rc.1 rc.2) (getCell s.mat rc.1 rc.2 - 1) = true) ∧
    (∀ a b, getTag s.tagRow a b = true →
      getTag (cells.foldl (fun t rc => assignTag t rc.1 rc.2 (getCell t.mat rc.1 rc.2))
          s).tagRow a b = true) ∧
    (∀ a b, getTag s.tagCol a b = true →
      getTag (cells.foldl (fun t rc => assignTag t rc.1 rc.2 (getCell t.mat rc.1 rc.2))
          s).tagCol a b = true) ∧
    (∀ a b, getTag s.tagBlk a b = true →
      getTag (cells.foldl (fun t rc => assignTag t rc.1 rc.2 (getCell t.mat rc.1 rc.2))
          s).tagBlk a b = true) := by
  intro cells
  induction cells with
  | nil =>
    intro s hW hV _
    exact ⟨rfl, hW, by intro rc h; simp at h, fun a b h => h, fun a b h => h, fun a b h => h⟩
  | cons rc rest ih =>
    intro s hW hV hb
    obtain ⟨hr9, hc9⟩ := hb rc (List.mem_cons_self _ _)
    rw [List.foldl_cons]
    set s1 := assignTag s rc.1 rc.2 (getCell s.mat rc.1 rc.2) with hs1
    have hmat1 : s1.mat = s.mat := assignTag_mat _ _ _ _
    have hW1 : WfS s1 := assignTag_wf hW _ _ _
    have hV1 : ValLe9 s1.mat := by rw [hmat1]; exact hV
    obtain ⟨hmatF, hWF, hsetF, hmR, hmC, hmB⟩ :=
      ih s1 hW1 hV1 (fun x hx => hb x (List.mem_cons_of_mem _ hx))
    rw [hmat1] at hmatF hsetF
    have hmono := assignTag_mono (s := s) rc.1 rc.2 (getCell s.mat rc.1 rc.2)
    refine ⟨hmatF, hWF, ?_, fun a b h => hmR a b (hmono.1 a b h),
      fun a b h => hmC a b (hmono.2.1 a b h), fun a b h => hmB a b (hmono.2.2 a b h)⟩
    intro x hx h0
    rcases List.mem_cons.mp hx with hx1 | hx1
    · subst hx1
      have hv9 : getCell s.mat x.1 x.2 ≤ 9 := hV x.1 hr9 x.2 hc9
      obtain ⟨f1, f2, f3⟩ := assignTag_self hW hr9 hc9 h0 hv9
      exact ⟨hmR _ _ f1, hmC _ _ f2, hmB _ _ f3⟩
    · exact hsetF x hx1 h0

theorem allCells_bounds : ∀ rc ∈ allCells, rc.1 < 9 ∧ rc.2 < 9 := by decide

theorem fillTags_mat (s : SState) : (fillTags s).mat = s.mat := by
  rw [fillTags]
  induction allCells generalizing s with
  | nil => rfl
  | cons rc rest ih => rw [List.foldl_cons, ih, assignTag_mat]

theorem fillTags_props {s : SState} (hW : WfS s) (hV : ValLe9 s.mat) :
    (fillTags s).mat = s.mat ∧ GoodS (fillTags s) := by
  obtain ⟨hmat, hWF, hset, -, -, -⟩ := fillTags_fold allCells s hW hV allCells_bounds
  rw [fillTags]
  refine ⟨hmat, hWF, ?_, by rw [hmat]; exact hV⟩
  intro r hr c hc h0
  rw [hmat] at h0 ⊢
  exact hset (r, c) (mem_allCells hr hc) h0

theorem getD_map_range {α : Type} (f : Nat → α) {n j : Nat} (h : j < n) (d : α) :
    ((List.range n).map f).getD j d = f j := by
  have h1 : ((List.range n).map f)[j]? = some (f j) := by
    rw [List.getElem?_map, List.getElem?_range h]
    rfl
  rw [List.getD_eq_getElem?_getD, h1]
  rfl

theorem buildMat_wf (input : List (List Int)) : Wf2 (buildMat input) := by
  constructor
  · rw [buildMat]; simp
  · intro r hr
    rw [buildMat] at hr
    simp only [List.mem_map] at hr
    obtain ⟨j, -, rfl⟩ := hr
    simp

theorem getCell_buildMat (input : List (List Int)) {j k : Nat} (hj : j < 9) (hk : k < 9) :
    getCell (buildMat input) j k =
      (if (input.getD j []).getD k 0 < 1 ∨ (input.getD j []).getD k 0 > 9 then 0
       else ((input.getD j []).getD k 0).toNat) := by
  show ((buildMat input).getD j []).getD k 0 = _
  rw [buildMat, getD_map_range _ hj, getD_map_range _ hk]

theorem buildMat_le9 (input : List (List Int)) : ValLe9 (buildMat input) := by
  intro r hr c hc
  rw [getCell_buildMat input hr hc]
  split
  · omega
  · omega

theorem buildState_mat (input : List (List Int)) :
    (buildState input).mat = buildMat input := by
  rw [buildState, fillTags_mat]
  rfl

theorem buildState_good (input : List (List Int)) : GoodS (buildState input) := by
  have hW : WfS (initState input) :=
    ⟨buildMat_wf input, wf2_replicate, wf2_replicate, wf2_replicate⟩
  exact (fillTags_props hW (buildMat_le9 input)).2

theorem unit_count {L : List Nat} (hlen : L.length = 9) (hnd : L.Nodup)
    (hmem : ∀ x ∈ L, 1 ≤ x ∧ x ≤ 9) : unitOK L := by
  intro d hd10 hd1
  have hsub : L ⊆ [1, 2, 3, 4, 5, 6, 7, 8, 9] := by
    intro x hx
    obtain ⟨h1, h2⟩ := hmem x hx
    interval_cases x <;> simp
  have hsp : List.Subperm L [1, 2, 3, 4, 5, 6, 7, 8, 9] :=
    List.subperm_of_subset hnd hsub
  have hperm : List.Perm L [1, 2, 3, 4, 5, 6, 7, 8, 9] :=
    hsp.perm_of_length_le (by rw [hlen]; simp)
  rw [hperm.count_eq]
  interval_cases d <;> rfl

theorem nodup_unit {f : Nat → Nat}
    (hinj : ∀ x, x < 9 → ∀ y, y < 9 → f x = f y → x = y) :
    ((List.range 9).map f).Nodup := by
  refine List.Nodup.map_on ?_ (List.nodup_range 9)
  intro x hx y hy
  exact hinj x (List.mem_range.mp hx) y (List.mem_range.mp hy)

theorem final_valid {m : List (List Nat)}
    (hfill : ∀ r, r < 9 → ∀ c, c < 9 → getCell m r c ≠ 0)
    (hle : ValLe9 m) (hD : NoDups m) : validGrid m := by
  intro u hu
  have hmemu : ∀ g : Nat → Nat, (∀ x, x < 9 → 1 ≤ g x ∧ g x ≤ 9) →
      ∀ x ∈ (List.range 9).map g, 1 ≤ x ∧ x ≤ 9 := by
    intro g hg x hx
    simp only [List.mem_map, List.mem_range] at hx
    obtain ⟨y, hy, rfl⟩ := hx
    exact hg y hy
  refine ⟨?_, ?_, ?_⟩
  · -- row u
    refine unit_count (by simp [rowList]) ?_ ?_
    · refine nodup_unit ?_
      intro x hx y hy he
      by_contra hne
      exact hD u hu x hx u hu y hy (by tauto) (Or.inl rfl) (hfill u hu x hx) he
    · refine hmemu _ ?_
      intro x hx
      have := hfill u hu x hx
      have := hle u hu x hx
      omega
  · -- column u
    refine unit_count (by simp [colList]) ?_ ?_
    · refine nodup_unit ?_
      intro x hx y hy he
      by_contra hne
      exact hD x hx u hu y hy u hu (by tauto) (Or.inr (Or.inl rfl)) (hfill x hx u hu) he
    · refine hmemu _ ?_
      intro x hx
      have := hfill x hx u hu
      have := hle x hx u hu
      omega
  · -- block u
    have hcell : ∀ t, t < 9 → (u / 3) * 3 + t / 3 < 9 ∧ (u % 3) * 3 + t % 3 < 9 := by
      intro t ht
      omega
    refine unit_count (by simp [blkList]) ?_ ?_
    · refine nodup_unit ?_
      intro x hx y hy he
      by_contra hne
      obtain ⟨hr1, hc1⟩ := hcell x hx
      obtain ⟨hr2, hc2⟩ := hcell y hy
      have hblk : blk ((u / 3) * 3 + x / 3) ((u % 3) * 3 + x % 3) =
          blk ((u / 3) * 3 + y / 3) ((u % 3) * 3 + y % 3) := by
        rw [blk, blk]
        omega
      have hnecell : ¬((u / 3) * 3 + x / 3 = (u / 3) * 3 + y / 3 ∧
          (u % 3) * 3 + x % 3 = (u % 3) * 3 + y % 3) := by
        rintro ⟨h1, h2⟩
        exact hne (by omega)
      exact hD _ hr1 _ hc1 _ hr2 _ hc2 hnecell (Or.inr (Or.inr hblk))
        (hfill _ hr1 _ hc1) he
    · refine hmemu _ ?_
      intro t ht
      obtain ⟨hr1, hc1⟩ := hcell t ht
      have := hfill _ hr1 _ hc1
      have := hle _ hr1 _ hc1
      omega

/-! ### Pipeline composition -/

theorem solveLogical_props {s : SState} (hG : GoodS s) :
    GoodS (solveLogical s) ∧ ExtendsM s.mat (solveLogical s).mat ∧
    NoNewDup s.mat (solveLogical s).mat :=
  solveLogicalF_props _ s hG

theorem solveLogical_fixpoint {s : SState} (hG : GoodS s) :
    logicalIter (solveLogical s) = (solveLogical s, false) :=
  solveLogicalF_fix _ s hG (by omega)

theorem solvePuzzle_success {s t : SState} (hG : GoodS s)
    (h : solvePuzzle s = some (t, true)) :
    GoodS t ∧ ExtendsM s.mat t.mat ∧ NoNewDup s.mat t.mat ∧ PosFilled t.mat 0 := by
  rw [solvePuzzle] at h
  obtain ⟨hGl, hEl, hNl⟩ := solveLogical_props hG
  obtain ⟨hGt, hEt, hNt, hPt⟩ :=
    sb_sound 100 (solveLogical s) 0 0 t hGl (by omega) (by omega) h
  exact ⟨hGt, extendsM_trans hEl hEt, noNewDup_trans hNl hEt hNt,
    posFilled_mono (by omega) hPt⟩

theorem solvePuzzle_total (s : SState) : solvePuzzle s ≠ none := by
  rw [solvePuzzle]
  exact sb_total 100 _ 0 0 (by omega) (by omega) (by omega)

theorem run_cases (input : List (List Int)) :
    (∃ t, solvePuzzle (buildState input) = some (t, true) ∧
      sudokuSolverRun input = CtorResult.solved t.mat) ∨
    (∃ t, solvePuzzle (buildState input) = some (t, false) ∧
      sudokuSolverRun input =
        CtorResult.exitProcess "Error: Puzzle cannot  be solved." 1) := by
  cases h : solvePuzzle (buildState input) with
  | none => exact absurd h (solvePuzzle_total _)
  | some p =>
    obtain ⟨t, b⟩ := p
    cases b
    · right
      refine ⟨t, rfl, ?_⟩
      unfold sudokuSolverRun
      rw [h]
    · left
      refine ⟨t, rfl, ?_⟩
      unfold sudokuSolverRun
      rw [h]

/-- Inversion: a `solved` outcome comes from a successful search. -/

theorem run_solved {input : List (List Int)} {g : List (List Nat)}
    (h : sudokuSolverRun input = CtorResult.solved g) :
    ∃ t, solvePuzzle (buildState input) = some (t, true) ∧ g = t.mat := by
  rcases run_cases input with ⟨t, hp, hr⟩ | ⟨t, hp, hr⟩
  · rw [h] at hr
    exact ⟨t, hp, by injection hr⟩
  · rw [h] at hr
    exact absurd hr (by simp)

/-! ### Fixpoint states pass the scans unchanged -/

theorem scanStep_id {p : SState × Bool} {cells : List (Nat × Nat)} {l : Nat}
    (hcnt : (countAccept p.1 cells l).1 ≠ 1) : scanStep cells p l = p := by
  rw [scanStep, if_neg hcnt]

theorem scanDigits_id {cells : List (Nat × Nat)} {s : SState} {f : Bool} :
    ∀ digits : List Nat, (∀ l ∈ digits, (countAccept s cells l).1 ≠ 1) →
    digits.foldl (fun q l => scanStep cells q l) (s, f) = (s, f) := by
  intro digits
  induction digits with
  | nil => intro _; rfl
  | cons l rest ih =>
    intro h
    rw [List.foldl_cons, scanStep_id (h l (List.mem_cons_self _ _))]
    exact ih (fun x hx => h x (List.mem_cons_of_mem _ hx))

theorem scanUnits_id {unitCells : Nat → List (Nat × Nat)} {digits : List Nat}
    {s : SState} {f : Bool}
    (h : ∀ k, k < 9 → ∀ l ∈ digits, (countAccept s (unitCells k) l).1 ≠ 1) :
    scanUnits unitCells digits (s, f) = (s, f) := by
  rw [scanUnits]
  have : ∀ ks : List Nat, (∀ k ∈ ks, k < 9) →
      ks.foldl (fun q k => digits.foldl (fun q2 l => scanStep (unitCells k) q2 l) q)
        (s, f) = (s, f) := by
    intro ks
    induction ks with
    | nil => intro _; rfl
    | cons k rest ih =>
      intro hk
      rw [List.foldl_cons, scanDigits_id digits (h k (hk k (List.mem_cons_self _ _)))]
      exact ih (fun x hx => hk x (List.mem_cons_of_mem _ hx))
  exact this (List.range 9) (fun k hk => List.mem_range.mp hk)

theorem logicalIter_id {s : SState}
    (hb : ∀ k, k < 9 → ∀ l ∈ digitsAll, (countAccept s (blockCells k) l).1 ≠ 1)
    (hr : ∀ k, k < 9 → ∀ l ∈ digitsRC, (countAccept s (rowUnitCells k) l).1 ≠ 1)
    (hc : ∀ k, k < 9 → ∀ l ∈ digitsRC, (countAccept s (colUnitCells k) l).1 ≠ 1) :
    logicalIter s = (s, false) := by
  show scanUnits colUnitCells digitsRC
    (scanUnits rowUnitCells digitsRC
      (scanUnits blockCells digitsAll (s, false))) = (s, false)
  rw [scanUnits_id hb, scanUnits_id hr, scanUnits_id hc]

theorem solveLogical_id {s : SState} (h : logicalIter s = (s, false)) :
    solveLogical s = s := by
  rw [solveLogical, solveLogicalF_succ, h]
  rfl

theorem getTag_assignTag_row {s : SState} (hW : WfS s) {i j : Nat} (n : Nat)
    (hi : i < 9) (hn : n ≤ 9) (a b : Nat) :
    getTag (assignTag s i j n).tagRow a b =
      (getTag s.tagRow a b || (i == a && n == b + 1)) := by
  unfold assignTag
  by_cases hn0 : n = 0
  · rw [if_pos hn0]
    subst hn0
    have : (0 == b + 1) = false := by simp
    rw [this, Bool.and_false, Bool.or_false]
  · rw [if_neg hn0]
    by_cases hab : i = a ∧ n - 1 = b
    · obtain ⟨rfl, rfl⟩ := hab
      have heq : getTag (setTag s.tagRow i (n - 1) true) i (n - 1) = true :=
        get2_set2_eq hW.2.1 hi (by omega) true false
      rw [heq]
      have : (i == i) = true := by simp
      have h2 : (n == n - 1 + 1) = true := by simp; omega
      rw [this, h2]
      simp
    · rw [getTag_setTag_ne hab]
      have : (i == a && n == b + 1) = false := by
        by_cases hia : i = a
        · subst hia
          have : ¬(n = b + 1) := by omega
          simp [this]
        · simp [hia]
      rw [this, Bool.or_false]

theorem getTag_assignTag_col {s : SState} (hW : WfS s) {i j : Nat} (n : Nat)
    (hj : j < 9) (hn : n ≤ 9) (a b : Nat) :
    getTag (assignTag s i j n).tagCol a b =
      (getTag s.tagCol a b || (j == b && n == a + 1)) := by
  unfold assignTag
  by_cases hn0 : n = 0
  · rw [if_pos hn0]
    subst hn0
    have : (0 == a + 1) = false := by simp
    rw [this, Bool.and_false, Bool.or_false]
  · rw [if_neg hn0]
    by_cases hab : n - 1 = a ∧ j = b
    · obtain ⟨rfl, rfl⟩ := hab
      have heq : getTag (setTag s.tagCol (n - 1) j true) (n - 1) j = true :=
        get2_set2_eq hW.2.2.1 (by omega) hj true false
      rw [heq]
      have : (j == j) = true := by simp
      have h2 : (n == n - 1 + 1) = true := by simp; omega
      rw [this, h2]
      simp
    · rw [getTag_setTag_ne hab]
      have : (j == b && n == a + 1) = false := by
        by_cases hjb : j = b
        · subst hjb
          have : ¬(n = a + 1) := by omega
          simp [this]
        · simp [hjb]
      rw [this, Bool.or_false]

theorem getTag_assignTag_blk {s : SState} (hW : WfS s) {i j : Nat} (n : Nat)
    (hi : i < 9) (hj : j < 9) (hn : n ≤ 9) (a b : Nat) :
    getTag (assignTag s i j n).tagBlk a b =
      (getTag s.tagBlk a b || (blk i j == a && n == b + 1)) := by
  unfold assignTag
  by_cases hn0 : n = 0
  · rw [if_pos hn0]
    subst hn0
    have : (0 == b + 1) = false := by simp
    rw [this, Bool.and_false, Bool.or_false]
  · rw [if_neg hn0]
    by_cases hab : blk i j = a ∧ n - 1 = b
    · obtain ⟨rfl, rfl⟩ := hab
      have heq : getTag (setTag s.tagBlk (blk i j) (n - 1) true) (blk i j) (n - 1) = true :=
        get2_set2_eq hW.2.2.2 (blk_lt hi hj) (by omega) true false
      rw [heq]
      have : (blk i j == blk i j) = true := by simp
      have h2 : (n == n - 1 + 1) = true := by simp; omega
      rw [this, h2]
      simp
    · rw [getTag_setTag_ne hab]
      have : (blk i j == a && n == b + 1) = false := by
        by_cases hba : blk i j = a
        · subst hba
          have : ¬(n = b + 1) := by omega
          simp [this]
        · simp [hba]
      rw [this, Bool.or_false]

theorem fillTags_tags_char : ∀ (cells : List (Nat × Nat)) (s : SState), WfS s →
    ValLe9 s.mat → (∀ rc ∈ cells, rc.1 < 9 ∧ rc.2 < 9) → ∀ (a b : Nat),
    (getTag (cells.foldl (fun t rc => assignTag t rc.1 rc.2 (getCell t.mat rc.1 rc.2))
        s).tagRow a b =
      (getTag s.tagRow a b ||
        cells.any (fun rc => rc.1 == a && getCell s.mat rc.1 rc.2 == b + 1))) ∧
    (getTag (cells.foldl (fun t rc => assignTag t rc.1 rc.2 (getCell t.mat rc.1 rc.2))
        s).tagCol a b =
      (getTag s.tagCol a b ||
        cells.any (fun rc => rc.2 == b && getCell s.mat rc.1 rc.2 == a + 1))) ∧
    (getTag (cells.foldl (fun t rc => assignTag t rc.1 rc.2 (getCell t.mat rc.1 rc.2))
        s).tagBlk a b =
      (getTag s.tagBlk a b ||
        cells.any (fun rc => blk rc.1 rc.2 == a && getCell s.mat rc.1 rc.2 == b + 1))) := by
  intro cells
  induction cells with
  | nil =>
    intro s _ _ _ a b
    simp
  | cons rc rest ih =>
    intro s hW hV hb a b
    obtain ⟨hr9, hc9⟩ := hb rc (List.mem_cons_self _ _)
    have hv9 : getCell s.mat rc.1 rc.2 ≤ 9 := hV rc.1 hr9 rc.2 hc9
    rw [List.foldl_cons]
    set s1 := assignTag s rc.1 rc.2 (getCell s.mat rc.1 rc.2) with hs1
    have hmat1 : s1.mat = s.mat := assignTag_mat _ _ _ _
    have hW1 : WfS s1 := assignTag_wf hW _ _ _
    have hV1 : ValLe9 s1.mat := by rw [hmat1]; exact hV
    obtain ⟨ihr, ihc, ihb⟩ := ih s1 hW1 hV1 (fun x hx => hb x (List.mem_cons_of_mem _ hx)) a b
    rw [hmat1] at ihr ihc ihb
    refine ⟨?_, ?_, ?_⟩
    · rw [ihr, hs1, getTag_assignTag_row hW _ hr9 hv9 a b, List.any_cons]
      rw [Bool.or_assoc]
    · rw [ihc, hs1, getTag_assignTag_col hW _ hc9 hv9 a b, List.any_cons]
      rw [Bool.or_assoc]
    · rw [ihb, hs1, getTag_assignTag_blk hW _ hr9 hc9 hv9 a b, List.any_cons]
      rw [Bool.or_assoc]

theorem getD_replicate_lt {α : Type} {n a : Nat} (x : α) (d : α) (h : a < n) :
    (List.replicate n x).getD a d = x := by
  induction n generalizing a with
  | zero => omega
  | succ m ih =>
    cases a with
    | zero => rfl
    | succ a' =>
      rw [List.replicate_succ, List.getD_cons_succ]
      exact ih (by omega)

theorem getTag_initState (input : List (List Int)) (a b : Nat) :
    getTag (initState input).tagRow a b = false ∧
    getTag (initState input).tagCol a b = false ∧
    getTag (initState input).tagBlk a b = false := by
  refine ⟨?_, ?_, ?_⟩ <;>
  · show get2 (List.replicate 9 (List.replicate 9 false)) a b false = false
    rw [get2]
    by_cases ha : a < 9
    · rw [getD_replicate_lt _ _ ha]
      by_cases hb : b < 9
      · rw [getD_replicate_lt _ _ hb]
      · have hlen : (List.replicate 9 (false : Bool)).length ≤ b := by
          rw [List.length_replicate]; omega
        rw [List.getD_eq_default _ _ hlen]
    · have hlen : (List.replicate 9 (List.replicate 9 (false : Bool))).length ≤ a := by
        rw [List.length_replicate]; omega
      have hrow : (List.replicate 9 (List.replicate 9 (false : Bool))).getD a [] = [] :=
        List.getD_eq_default _ _ hlen
      rw [hrow]
      rfl

/-- The tag tables of `buildState` described pointwise: a flag is set exactly
when some cell of the normalised matrix carries the matching digit. -/

theorem buildState_tags (input : List (List Int)) (a b : Nat) :
    getTag (buildState input).tagRow a b = rowTagOf (buildMat input) a b ∧
    getTag (buildState input).tagCol a b = colTagOf (buildMat input) a b ∧
    getTag (buildState input).tagBlk a b = blkTagOf (buildMat input) a b := by
  have hW : WfS (initState input) :=
    ⟨buildMat_wf input, wf2_replicate, wf2_replicate, wf2_replicate⟩
  have hchar := fillTags_tags_char allCells (initState input) hW
    (buildMat_le9 input) allCells_bounds a b
  obtain ⟨h0r, h0c, h0b⟩ := getTag_initState input a b
  show getTag (fillTags (initState input)).tagRow a b = _ ∧
    getTag (fillTags (initState input)).tagCol a b = _ ∧
    getTag (fillTags (initState input)).tagBlk a b = _
  rw [fillTags]
  obtain ⟨hr, hc, hb⟩ := hchar
  rw [hr, hc, hb, h0r, h0c, h0b]
  exact ⟨by rw [Bool.false_or]; rfl, by rw [Bool.false_or]; rfl, by rw [Bool.false_or]; rfl⟩

theorem eq_of_get2 {α : Type} {l l' : List (List α)} (d : α)
    (hW : Wf2 l) (hW' : Wf2 l')
    (h : ∀ a, a < 9 → ∀ b, b < 9 → get2 l a b d = get2 l' a b d) : l = l' := by
  obtain ⟨hlen, hrow⟩ := hW
  obtain ⟨hlen', hrow'⟩ := hW'
  refine List.ext_getElem (by omega) ?_
  intro a ha ha'
  have ha9 : a < 9 := by omega
  have hrl : l[a].length = 9 := hrow _ (List.getElem_mem ha)
  have hrl' : l'[a].length = 9 := hrow' _ (List.getElem_mem ha')
  refine List.ext_getElem (by omega) ?_
  intro b hb hb'
  have hb9 : b < 9 := by omega
  have h1 : get2 l a b d = l[a][b] := by
    rw [get2, List.getD_eq_getElem l [] ha, List.getD_eq_getElem _ d hb]
  have h2 : get2 l' a b d = l'[a][b] := by
    rw [get2, List.getD_eq_getElem l' [] ha', List.getD_eq_getElem _ d hb']
  rw [← h1, ← h2]
  exact h a ha9 b hb9

/-- Package: identify `buildState input` with an explicitly given state by
checking the matrix and the pointwise tag descriptions. -/

theorem buildState_eq_of (input : List (List Int)) (S : SState)
    (hm : buildMat input = S.mat) (hWS : WfS S)
    (hr : ∀ a, a < 9 → ∀ b, b < 9 → rowTagOf (buildMat input) a b = getTag S.tagRow a b)
    (hc : ∀ a, a < 9 → ∀ b, b < 9 → colTagOf (buildMat input) a b = getTag S.tagCol a b)
    (hb : ∀ a, a < 9 → ∀ b, b < 9 → blkTagOf (buildMat input) a b = getTag S.tagBlk a b) :
    buildState input = S := by
  have hG := buildState_good input
  refine stateExt ?_ ?_ ?_ ?_
  · rw [buildState_mat, hm]
  · refine eq_of_get2 false hG.1.2.1 hWS.2.1 ?_
    intro a ha b hb'
    show getTag (buildState input).tagRow a b = getTag S.tagRow a b
    rw [(buildState_tags input a b).1, hr a ha b hb']
  · refine eq_of_get2 false hG.1.2.2.1 hWS.2.2.1 ?_
    intro a ha b hb'
    show getTag (buildState input).tagCol a b = getTag S.tagCol a b
    rw [(buildState_tags input a b).2.1, hc a ha b hb']
  · refine eq_of_get2 false hG.1.2.2.2 hWS.2.2.2 ?_
    intro a ha b hb'
    show getTag (buildState input).tagBlk a b = getTag S.tagBlk a b
    rw [(buildState_tags input a b).2.2, hb a ha b hb']

/-! ### Extracting unit facts from a scan fixpoint -/

theorem scanStep_flag_mono {p : SState × Bool} {cells : List (Nat × Nat)} {l : Nat}
    (h : p.2 = true) : (scanStep cells p l).2 = true := by
  rw [scanStep]
  split
  · rfl
  · exact h

theorem scanDigits_flag_mono {cells : List (Nat × Nat)} :
    ∀ (digits : List Nat) (p : SState × Bool), p.2 = true →
    (digits.foldl (fun q l => scanStep cells q l) p).2 = true := by
  intro digits
  induction digits with
  | nil => intro p h; exact h
  | cons l rest ih =>
    intro p h
    rw [List.foldl_cons]
    exact ih _ (scanStep_flag_mono h)

theorem scanStep_false {p : SState × Bool} {cells : List (Nat × Nat)} {l : Nat}
    (h : (scanStep cells p l).2 = false) :
    scanStep cells p l = p ∧ (countAccept p.1 cells l).1 ≠ 1 := by
  rw [scanStep] at h ⊢
  by_cases hcnt : (countAccept p.1 cells l).1 = 1
  · rw [if_pos hcnt] at h
    exact absurd h (by simp)
  · rw [if_neg hcnt]
    exact ⟨rfl, hcnt⟩

theorem scanDigits_false {cells : List (Nat × Nat)} :
    ∀ (digits : List Nat) (p : SState × Bool),
    (digits.foldl (fun q l => scanStep cells q l) p).2 = false →
    digits.foldl (fun q l => scanStep cells q l) p = p ∧
    ∀ l ∈ digits, (countAccept p.1 cells l).1 ≠ 1 := by
  intro digits
  induction digits with
  | nil => intro p _; exact ⟨rfl, by intro l hl; simp at hl⟩
  | cons l rest ih =>
    intro p hf
    rw [List.foldl_cons] at hf ⊢
    have h1 : (scanStep cells p l).2 = false := by
      by_cases hb : (scanStep cells p l).2 = true
      · rw [scanDigits_flag_mono rest _ hb] at hf
        exact absurd hf (by simp)
      · revert hb
        cases (scanStep cells p l).2 <;> simp
    obtain ⟨hid, hcnt⟩ := scanStep_false h1
    rw [hid] at hf ⊢
    obtain ⟨hid2, hcnt2⟩ := ih p hf
    refine ⟨hid2, ?_⟩
    intro x hx
    rcases List.mem_cons.mp hx with rfl | hx'
    · exact hcnt
    · exact hcnt2 x hx'

theorem scanUnitsList_flag_mono {unitCells : Nat → List (Nat × Nat)} {digits : List Nat} :
    ∀ (ks : List Nat) (p : SState × Bool), p.2 = true →
    (ks.foldl (fun q k => digits.foldl (fun q2 l => scanStep (unitCells k) q2 l) q) p).2
      = true := by
  intro ks
  induction ks with
  | nil => intro p h; exact h
  | cons k rest ih =>
    intro p h
    rw [List.foldl_cons]
    exact ih _ (scanDigits_flag_mono digits _ h)

theorem scanUnits_flag_mono {unitCells : Nat → List (Nat × Nat)} {digits : List Nat}
    {p : SState × Bool} (h : p.2 = true) :
    (scanUnits unitCells digits p).2 = true :=
  scanUnitsList_flag_mono (List.range 9) p h

theorem scanUnits_false {unitCells : Nat → List (Nat × Nat)} {digits : List Nat}
    {s : SState} {f : Bool}
    (h : (scanUnits unitCells digits (s, f)).2 = false) :
    scanUnits unitCells digits (s, f) = (s, f) ∧
    ∀ k, k < 9 → ∀ l ∈ digits, (countAccept s (unitCells k) l).1 ≠ 1 := by
  rw [scanUnits] at h ⊢
  have main : ∀ (ks : List Nat) (p : SState × Bool),
      (ks.foldl (fun q k => digits.foldl (fun q2 l => scanStep (unitCells k) q2 l) q) p).2
        = false →
      ks.foldl (fun q k => digits.foldl (fun q2 l => scanStep (unitCells k) q2 l) q) p = p ∧
      ∀ k ∈ ks, ∀ l ∈ digits, (countAccept p.1 (unitCells k) l).1 ≠ 1 := by
    intro ks
    induction ks with
    | nil => intro p _; exact ⟨rfl, by intro k hk; simp at hk⟩
    | cons k rest ih =>
      intro p hf
      rw [List.foldl_cons] at hf ⊢
      have h1 : (digits.foldl (fun q2 l => scanStep (unitCells k) q2 l) p).2 = false := by
        by_cases hb : (digits.foldl (fun q2 l => scanStep (unitCells k) q2 l) p).2 = true
        · rw [scanUnitsList_flag_mono rest _ hb] at hf
          exact absurd hf (by simp)
        · revert hb
          cases (digits.foldl (fun q2 l => scanStep (unitCells k) q2 l) p).2 <;> simp
      obtain ⟨hid, hcnt⟩ := scanDigits_false digits p h1
      rw [hid] at hf ⊢
      obtain ⟨hid2, hcnt2⟩ := ih p hf
      refine ⟨hid2, ?_⟩
      intro x hx
      rcases List.mem_cons.mp hx with rfl | hx'
      · exact hcnt
      · exact hcnt2 x hx'
  obtain ⟨hid, hcnt⟩ := main (List.range 9) (s, f) h
  exact ⟨hid, fun k hk => hcnt k (List.mem_range.mpr hk)⟩

/-- A state on which one full iteration of the logical pass raises no flag has
no committable single in any scanned unit/digit pair. -/

theorem logicalIter_false_char {s : SState} (h : logicalIter s = (s, false)) :
    (∀ k, k < 9 → ∀ l ∈ digitsAll, (countAccept s (blockCells k) l).1 ≠ 1) ∧
    (∀ k, k < 9 → ∀ l ∈ digitsRC, (countAccept s (rowUnitCells k) l).1 ≠ 1) ∧
    (∀ k, k < 9 → ∀ l ∈ digitsRC, (countAccept s (colUnitCells k) l).1 ≠ 1) := by
  have hiter : scanUnits colUnitCells digitsRC
      (scanUnits rowUnitCells digitsRC
        (scanUnits blockCells digitsAll (s, false))) = (s, false) := h
  have hcol2 : (scanUnits colUnitCells digitsRC
      (scanUnits rowUnitCells digitsRC
        (scanUnits blockCells digitsAll (s, false)))).2 = false := by
    rw [hiter]
  have hrow2 : (scanUnits rowUnitCells digitsRC
      (scanUnits blockCells digitsAll (s, false))).2 = false := by
    by_cases hb : (scanUnits rowUnitCells digitsRC
        (scanUnits blockCells digitsAll (s, false))).2 = true
    · rw [scanUnits_flag_mono hb] at hcol2
      exact absurd hcol2 (by simp)
    · revert hb
      cases (scanUnits rowUnitCells digitsRC
        (scanUnits blockCells digitsAll (s, false))).2 <;> simp
  have hblk2 : (scanUnits blockCells digitsAll ((s : SState), false)).2 = false := by
    by_cases hb : (scanUnits blockCells digitsAll ((s : SState), false)).2 = true
    · rw [scanUnits_flag_mono hb] at hrow2
      exact absurd hrow2 (by simp)
    · revert hb
      cases (scanUnits blockCells digitsAll ((s : SState), false)).2 <;> simp
  obtain ⟨hbid, hbcnt⟩ := scanUnits_false hblk2
  rw [hbid] at hrow2
  obtain ⟨hrid, hrcnt⟩ := scanUnits_false hrow2
  rw [hbid, hrid] at hcol2
  obtain ⟨-, hccnt⟩ := scanUnits_false hcol2
  exact ⟨hbcnt, hrcnt, hccnt⟩

/-! ### The search is the ascending-digit column-major traversal -/

theorem tryVals_congr {rec1 rec2 : SState → Option (SState × Bool)}
    (h : ∀ u, rec1 u = rec2 u) (s : SState) (i j : Nat) :
    ∀ vals, tryVals rec1 s i j vals = tryVals rec2 s i j vals := by
  intro vals
  induction vals generalizing s with
  | nil => rfl
  | cons v rest ih =>
    simp only [tryVals]
    by_cases hcv : checkValid s i j v = true
    · rw [if_pos hcv, if_pos hcv, h (assignCell s i j v)]
      cases rec2 (assignCell s i j v) with
      | none => rfl
      | some p =>
        obtain ⟨t, b⟩ := p
        cases b
        · exact ih _
        · rfl
    · rw [if_neg hcv, if_neg hcv]
      exact ih _

/-- Helper: `solveBacktrack` is exactly the linear column-major traversal of
`searchSpecCM`: the cell examined at position `p = 9*j + i` is `(p % 9, p / 9)`
and the recursion advances `p` by one. -/

theorem sb_eq_specCM : ∀ (fuel : Nat) (s : SState) (i j : Nat), i ≤ 9 → j ≤ 8 →
    solveBacktrackF fuel s i j = searchSpecCM fuel s (9 * j + i) := by
  intro fuel
  induction fuel with
  | zero => intro s i j _ _; rfl
  | succ f ih =>
    intro s i j hi hj
    rw [solveBacktrackF, searchSpecCM]
    by_cases h9 : i = 9
    · subst h9
      rw [if_pos rfl]
      by_cases hj9 : j + 1 = 9
      · have h81 : 9 * j + 9 = 81 := by omega
        rw [if_pos hj9, if_pos h81]
      · have h81 : ¬(9 * j + 9 = 81) := by omega
        rw [if_neg hj9, if_neg h81]
        have hmod : (9 * j + 9) % 9 = 0 := by omega
        have hdiv : (9 * j + 9) / 9 = j + 1 := by omega
        rw [hmod, hdiv]
        by_cases hfill : getCell s.mat 0 (j + 1) > 0
        · rw [if_pos hfill, if_pos hfill]
          have := ih s 1 (j + 1) (by omega) (by omega)
          rw [this]
          have : 9 * (j + 1) + 1 = 9 * j + 9 + 1 := by ring
          rw [this]
        · rw [if_neg hfill, if_neg hfill]
          have harg : ∀ u, solveBacktrackF f u 1 (j + 1) = searchSpecCM f u (9 * j + 9 + 1) := by
            intro u
            have := ih u 1 (j + 1) (by omega) (by omega)
            rw [this]
            have h2 : 9 * (j + 1) + 1 = 9 * j + 9 + 1 := by ring
            rw [h2]
          exact tryVals_congr harg s 0 (j + 1) digitsAll
    · have h81 : ¬(9 * j + i = 81) := by omega
      rw [if_neg h9, if_neg h81]
      have hmod : (9 * j + i) % 9 = i := by omega
      have hdiv : (9 * j + i) / 9 = j := by omega
      rw [hmod, hdiv]
      by_cases hfill : getCell s.mat i j > 0
      · rw [if_pos hfill, if_pos hfill]
        exact ih s (i + 1) j (by omega) hj
      · rw [if_neg hfill, if_neg hfill]
        exact tryVals_congr (fun u => ih u (i + 1) j (by omega) hj) s i j digitsAll

theorem sall5_eq : buildState all5input = Sall5 :=
  buildState_eq_of _ _ (by decide) (by decide) (by decide) (by decide) (by decide)

theorem sall5_iter : logicalIter Sall5 = (Sall5, false) :=
  logicalIter_id (by decide) (by decide) (by decide)

theorem sall5_bt : solveBacktrackF 100 Sall5 0 0 = some (Sall5, true) := by decide

theorem run_all5 : sudokuSolverRun all5input = CtorResult.solved Sall5.mat := by
  unfold sudokuSolverRun
  rw [sall5_eq, solvePuzzle, solveLogical_id sall5_iter, sall5_bt]

theorem sw_eq : buildState winput = SW :=
  buildState_eq_of _ _ (by decide) (by decide) (by decide) (by decide) (by decide)

theorem sw_iter : logicalIter SW = (SW, false) :=
  logicalIter_id (by decide) (by decide) (by decide)

theorem sw_bt : solveBacktrackF 100 SW 0 0 = some (SW, true) := by decide

theorem run_w : sudokuSolverRun winput = CtorResult.solved SW.mat := by
  unfold sudokuSolverRun
  rw [sw_eq, solvePuzzle, solveLogical_id sw_iter, sw_bt]

theorem s5_eq : buildState g5input = S5 :=
  buildState_eq_of _ _ (by decide) (by decide) (by decide) (by decide) (by decide)

theorem s5_iter : logicalIter S5 = (S5, false) :=
  logicalIter_id (by decide) (by decide) (by decide)

theorem s5_bt : solveBacktrackF 100 S5 0 0 = some (S5, false) := by decide

theorem run_g5 : sudokuSolverRun g5input =
    CtorResult.exitProcess "Error: Puzzle cannot  be solved." 1 := by
  unfold sudokuSolverRun
  rw [s5_eq, solvePuzzle, solveLogical_id s5_iter, s5_bt]

theorem s6_eq : buildState g6input = S6 :=
  buildState_eq_of _ _ (by decide) (by decide) (by decide) (by decide) (by decide)

theorem s6_iter : logicalIter S6 = (S6, false) :=
  logicalIter_id (by decide) (by decide) (by decide)

theorem s7_eq : buildState g7input = S7 :=
  buildState_eq_of _ _ (by decide) (by decide) (by decide) (by decide) (by decide)

theorem s7_iter : logicalIter S7 = (S7, false) :=
  logicalIter_id (by decide) (by decide) (by decide)

theorem s3_eq : buildState g3input = S3 :=
  buildState_eq_of _ _ (by decide) (by decide) (by decide) (by decide) (by decide)

theorem g3_differ : solveBacktrackF 100 S3 0 0 ≠ solveBacktrackRowMajorF 100 S3 0 0 := by
  decide

/-! ### The two-fives input admits no successful search -/

/-- On the input with (0,0)=5 and (0,1)=5 the search cannot succeed: a grid
extending it with all 81 cells filled and no new same-unit duplicate would need
a 5 in each of rows 1..8, never in columns 0 or 1 (each would duplicate a given
5 in its column), leaving 8 fives for the 7 columns 2..8 — impossible by
pigeonhole, as two fives in one column would again be a new duplicate. -/

theorem c8_no_success : ∀ t : SState, solvePuzzle (buildState c8input) ≠ some (t, true) := by
  intro t hp
  obtain ⟨hGt, hE, hN, hP⟩ := solvePuzzle_success (buildState_good c8input) hp
  rw [buildState_mat] at hE hN
  have hA : ∀ r, r < 9 → ∀ c, c < 9 → getCell (buildMat c8input) r c ≠ 0 →
      r = 0 ∧ c ≤ 1 := by decide
  have hB : getCell (buildMat c8input) 0 0 = 5 := by decide
  have hC : getCell (buildMat c8input) 0 1 = 5 := by decide
  have ht00 : getCell t.mat 0 0 = 5 := by
    rw [hE 0 (by omega) 0 (by omega) (by rw [hB]; omega)]
    exact hB
  have ht01 : getCell t.mat 0 1 = 5 := by
    rw [hE 0 (by omega) 1 (by omega) (by rw [hC]; omega)]
    exact hC
  have hle : ValLe9 t.mat := hGt.2.2
  have hfill : ∀ r, r < 9 → ∀ c, c < 9 → getCell t.mat r c ≠ 0 :=
    fun r hr c hc => hP r hr c hc (by omega)
  have hrow5 : ∀ r : Nat, ∃ c : Nat, 1 ≤ r → r ≤ 8 →
      c < 9 ∧ 2 ≤ c ∧ getCell t.mat r c = 5 := by
    intro r
    by_cases hr : 1 ≤ r ∧ r ≤ 8
    · obtain ⟨h1, h8⟩ := hr
      have hr9 : r < 9 := by omega
      have hnd : ((List.range 9).map (fun c => getCell t.mat r c)).Nodup := by
        refine nodup_unit ?_
        intro x hx y hy he
        by_contra hne
        obtain ⟨hm1, -⟩ := hN r hr9 x hx r hr9 y hy (fun hq => hne hq.2) (Or.inl rfl)
          (hfill r hr9 x hx) he
        obtain ⟨hr0, -⟩ := hA r hr9 x hx hm1
        omega
      have hmem : ∀ x ∈ (List.range 9).map (fun c => getCell t.mat r c),
          1 ≤ x ∧ x ≤ 9 := by
        intro x hx
        simp only [List.mem_map, List.mem_range] at hx
        obtain ⟨y, hy, rfl⟩ := hx
        have := hfill r hr9 y hy
        have := hle r hr9 y hy
        omega
      have hcnt := unit_count (by simp) hnd hmem 5 (by omega) (by omega)
      have h5 : 5 ∈ (List.range 9).map (fun c => getCell t.mat r c) := by
        by_contra h5n
        rw [List.count_eq_zero_of_not_mem h5n] at hcnt
        omega
      simp only [List.mem_map, List.mem_range] at h5
      obtain ⟨c, hc, hval⟩ := h5
      refine ⟨c, fun _ _ => ⟨hc, ?_, hval⟩⟩
      by_contra hc2
      have hc01 : c = 0 ∨ c = 1 := by omega
      rcases hc01 with rfl | rfl
      · obtain ⟨hm1, -⟩ := hN r hr9 0 (by omega) 0 (by omega) 0 (by omega)
          (by omega) (Or.inr (Or.inl rfl)) (by rw [hval]; omega)
          (by rw [hval, ht00])
        obtain ⟨hr0, -⟩ := hA r hr9 0 (by omega) hm1
        omega
      · obtain ⟨hm1, -⟩ := hN r hr9 1 (by omega) 0 (by omega) 1 (by omega)
          (by omega) (Or.inr (Or.inl rfl)) (by rw [hval]; omega)
          (by rw [hval, ht01])
        obtain ⟨hr0, -⟩ := hA r hr9 1 (by omega) hm1
        omega
    · exact ⟨0, fun h1 h8 => absurd ⟨h1, h8⟩ hr⟩
  choose f hf using hrow5
  have hmaps : ∀ r ∈ Finset.Icc 1 8, f r ∈ Finset.Icc 2 8 := by
    intro r hr
    rw [Finset.mem_Icc] at hr ⊢
    obtain ⟨hc9, hc2, -⟩ := hf r hr.1 hr.2
    exact ⟨hc2, by omega⟩
  have hinj : Set.InjOn f (Finset.Icc 1 8) := by
    intro a ha b hb he
    simp only [Finset.coe_Icc, Set.mem_Icc] at ha hb
    by_contra hne
    obtain ⟨hca9, hca2, hva⟩ := hf a ha.1 ha.2
    obtain ⟨hcb9, hcb2, hvb⟩ := hf b hb.1 hb.2
    obtain ⟨hm1, -⟩ := hN a (by omega) (f a) hca9 b (by omega) (f b) hcb9
      (fun hq => hne hq.1) (Or.inr (Or.inl he)) (by rw [hva]; omega)
      (by rw [hva, hvb])
    obtain ⟨ha0, -⟩ := hA a (by omega) (f a) hca9 hm1
    omega
  have hcard := Finset.card_le_card_of_injOn f hmaps hinj
  rw [Nat.card_Icc, Nat.card_Icc] at hcard
  omega

/-! ### The claims -/

/-- C1 (counterexample): the claim "for every input on which the solver
reports success, the returned grid satisfies all row/column/block uniqueness
constraints" is false as stated.  On the all-fives input the constructor
reports success and returns the all-fives grid, which is not a valid Sudoku
solution: the search skips every filled cell without validating it. -/

theorem C1_counterexample :
    sudokuSolverRun all5input = CtorResult.solved Sall5.mat ∧ ¬ validGrid Sall5.mat :=
  ⟨run_all5, by decide⟩

/-- C1 (amended): if the given digits of the input are duplicate-free (no two
equal values among the filled cells of a row, column or block after clamping
to 0/1..9), then a grid returned on success is a valid solution: every cell
filled and every row, column and block holding each digit 1..9 exactly once. -/

theorem C1_valid_output (input : List (List Int)) (g : List (List Nat))
    (hcons : NoDups (buildMat input))
    (hrun : sudokuSolverRun input = CtorResult.solved g) : validGrid g := by
  obtain ⟨t, hp, hg⟩ := run_solved hrun
  subst hg
  obtain ⟨hGt, hE, hN, hP⟩ := solvePuzzle_success (buildState_good input) hp
  rw [buildState_mat] at hE hN
  refine final_valid ?_ hGt.2.2 (noDups_of hcons hE hN)
  intro r hr c hc
  exact hP r hr c hc (by omega)

/-- Witness for C1: on the near-complete valid input `winput` the solver
succeeds with the grid `SW.mat`, the givens are duplicate-free, and the claim
theorem yields validity of the output. -/

theorem C1_valid_output_witness :
    NoDups (buildMat winput) ∧ sudokuSolverRun winput = CtorResult.solved SW.mat ∧
      validGrid SW.mat :=
  ⟨by decide, run_w, C1_valid_output winput SW.mat (by decide) run_w⟩

/-- C2 (confirmed): a given digit of the input (value 1..9 at an in-range
cell) survives into any successfully returned grid unchanged: no phase ever
overwrites a non-zero cell. -/

theorem C2_givens_preserved (input : List (List Int)) (r c : Nat) (v : Int)
    (g : List (List Nat)) (hr : r < 9) (hc : c < 9) (h1 : 1 ≤ v) (h9 : v ≤ 9)
    (hin : getInput input r c = v)
    (hrun : sudokuSolverRun input = CtorResult.solved g) :
    getCell g r c = v.toNat := by
  obtain ⟨t, hp, hg⟩ := run_solved hrun
  subst hg
  obtain ⟨-, hE, -, -⟩ := solvePuzzle_success (buildState_good input) hp
  rw [buildState_mat] at hE
  have hbm : getCell (buildMat input) r c = v.toNat := by
    rw [getCell_buildMat input hr hc]
    rw [getInput] at hin
    have hno : ¬((input.getD r []).getD c 0 < 1 ∨ (input.getD r []).getD c 0 > 9) := by
      rw [hin]; omega
    rw [if_neg hno, hin]
  have hnz : getCell (buildMat input) r c ≠ 0 := by
    rw [hbm]; omega
  rw [hE r hr c hc hnz, hbm]

/-- Witness for C2: the given 1 at cell (0,0) of `winput` reappears in the
returned grid. -/

theorem C2_givens_preserved_witness :
    getInput winput 0 0 = 1 ∧ sudokuSolverRun winput = CtorResult.solved SW.mat ∧
      getCell SW.mat 0 0 = (1 : Int).toNat :=
  ⟨by decide, run_w,
    C2_givens_preserved winput 0 0 1 SW.mat (by decide) (by decide) (by decide)
      (by decide) (by decide) run_w⟩

/-- C3 (counterexample): the claim that the search visits the cells in
row-major order (advancing column-first within a row) is false as stated: on
the multiple-solution input `g3input` the solver's search and the row-major
search of the spec return different results, so the code cannot be the
row-major traversal. -/

theorem C3_counterexample :
    solveBacktrackF 100 (buildState g3input) 0 0 ≠
      solveBacktrackRowMajorF 100 (buildState g3input) 0 0 := by
  rw [s3_eq]
  exact g3_differ

/-- C3 (amended): the search is the ascending-digit (1..9) depth-first search
over the 81 cells in COLUMN-major order: position `p = 9*col + row`, advancing
row-first within a column, then to the next column (`searchSpecCM`), the code's
`solveBacktrack(i, j)` being exactly the search from position `9*j + i`. -/

theorem C3_column_major (fuel : Nat) (s : SState) (i j : Nat)
    (hi : i ≤ 9) (hj : j ≤ 8) :
    solveBacktrackF fuel s i j = searchSpecCM fuel s (9 * j + i) :=
  sb_eq_specCM fuel s i j hi hj

/-- Witness for C3: the equivalence instantiated at the all-empty tracker
state `S4`-with-one-flag, fuel 1, entry position (0, 0). -/

theorem C3_column_major_witness :
    (0 : Nat) ≤ 9 ∧ (0 : Nat) ≤ 8 ∧
      solveBacktrackF 1 S4 0 0 = searchSpecCM 1 S4 (9 * 0 + 0) :=
  ⟨by decide, by decide, C3_column_major 1 S4 0 0 (by decide) (by decide)⟩

/-- C4 (counterexample): the claim "for every tracker state, place(r,c,d)
followed by unplace(r,c,d) restores the state bit-for-bit" is false as
stated: in the state `S4` whose row flag for digit 1 at row 0 is already set,
`assignTag` re-sets the flag and `resetTag` then clears it, losing the
original bit. -/

theorem C4_counterexample : resetTag (assignTag S4 0 0 1) 0 0 1 ≠ S4 := by
  decide

/-- C4 (amended): place-then-unplace with identical arguments restores the
tracker bit-for-bit whenever the digit's three flags were clear beforehand —
which `checkValid` certifies, and which holds at every placement the solver
performs. -/

theorem C4_place_unplace (s : SState) (r c d : Nat) (hd : d ≠ 0)
    (hcv : checkValid s r c d = true) :
    resetTag (assignTag s r c d) r c d = s :=
  resetTag_assignTag hd hcv

/-- Witness for C4: placing digit 2 at cell (1,1) of `S4` and unplacing it
restores `S4`. -/

theorem C4_place_unplace_witness :
    ((2 : Nat) ≠ 0 ∧ checkValid S4 1 1 2 = true) ∧
      resetTag (assignTag S4 1 1 2) 1 1 2 = S4 :=
  ⟨⟨by decide, by decide⟩, C4_place_unplace S4 1 1 2 (by decide) (by decide)⟩

/-- C5 (counterexample): the claim "the core never terminates the process and
returns an Unsolvable failure result to the caller" is false as stated: on
the unsolvable input `g5input` the constructor prints to `cerr` and calls
`exit(1)`, terminating the process instead of returning a result. -/

theorem C5_counterexample :
    sudokuSolverRun g5input =
      CtorResult.exitProcess "Error: Puzzle cannot  be solved." 1 :=
  run_g5

/-- C5 (amended): for every input the constructor either returns normally
with a (fully filled) grid, or terminates the process with the error message
and exit code 1 — it never returns an Unsolvable result to the caller. -/

theorem C5_outcomes (input : List (List Int)) :
    (∃ g, sudokuSolverRun input = CtorResult.solved g) ∨
    sudokuSolverRun input =
      CtorResult.exitProcess "Error: Puzzle cannot  be solved." 1 := by
  rcases run_cases input with ⟨t, -, hr⟩ | ⟨t, -, hr⟩
  · exact Or.inl ⟨t.mat, hr⟩
  · exact Or.inr hr

/-- C6 (counterexample): the claim that the Logical Deduction Pass leaves no
empty cell with exactly one legal candidate (a naked-single fixpoint) is
false as stated: on `g6input` the pass terminates immediately, yet cell
(4,4) is empty with 5 as its unique legal candidate.  The pass looks for
hidden singles (units accepting a digit in exactly one cell), never for
naked singles. -/

theorem C6_counterexample :
    getCell (solveLogical (buildState g6input)).mat 4 4 = 0 ∧
    digitsAll.filter
      (fun d => checkValid (solveLogical (buildState g6input)) 4 4 d) = [5] := by
  have h : solveLogical (buildState g6input) = S6 := by
    rw [s6_eq]
    exact solveLogical_id s6_iter
  rw [h]
  exact ⟨by decide, by decide⟩

/-- C6 (amended): the fixpoint the pass actually reaches is a HIDDEN-single
fixpoint over the scanned unit/digit pairs: when `solveLogical` returns, one
more iteration changes nothing, and no scanned unit (any block with digits
1..9, any row or column with digits 1..8 only) has exactly one empty cell
accepting a digit. -/

theorem C6_fixpoint (input : List (List Int)) :
    logicalIter (solveLogical (buildState input)) =
      (solveLogical (buildState input), false) ∧
    (∀ k, k < 9 → ∀ l ∈ digitsAll,
      (countAccept (solveLogical (buildState input)) (blockCells k) l).1 ≠ 1) ∧
    (∀ k, k < 9 → ∀ l ∈ digitsRC,
      (countAccept (solveLogical (buildState input)) (rowUnitCells k) l).1 ≠ 1) ∧
    (∀ k, k < 9 → ∀ l ∈ digitsRC,
      (countAccept (solveLogical (buildState input)) (colUnitCells k) l).1 ≠ 1) := by
  have hfix := solveLogical_fixpoint (buildState_good input)
  obtain ⟨h1, h2, h3⟩ := logicalIter_false_char hfix
  exact ⟨hfix, h1, h2, h3⟩

/-- C7 (code bug): the row and column scans of the Logical Deduction Pass run
`for (int l = 1; l < NUM; l++)`, examining only digits 1..8, never digit 9 —
unlike the block scan's `l <= NUM` (digits 1..9).  Consequence on `g7input`
(row 0 holding 1..8 in columns 0..7): the pass terminates at `S7` although
the row-0 unit accepts digit 9 in exactly one empty cell — the hidden single
the spec's row-scan step would commit — leaving cell (0,8) empty. -/

theorem C7_digit_scan_bug :
    digitsRC = [1, 2, 3, 4, 5, 6, 7, 8] ∧
    (∀ l ∈ digitsRC, l ≠ 9) ∧
    solveLogical (buildState g7input) = S7 ∧
    (countAccept S7 (rowUnitCells 0) 9).1 = 1 ∧
    getCell S7.mat 0 8 = 0 := by
  have h : solveLogical (buildState g7input) = S7 := by
    rw [s7_eq]
    exact solveLogical_id s7_iter
  exact ⟨rfl, by decide, h, by decide, by decide⟩

/-- C8 (confirmed): on the input with cells (0,0) and (0,1) both 5 and all
other cells empty, the solve fails: the top-level search returns false and
the constructor takes the failure branch (in the source, printing the error
and exiting with code 1). -/

theorem C8_two_fives_unsolvable :
    sudokuSolverRun c8input =
      CtorResult.exitProcess "Error: Puzzle cannot  be solved." 1 := by
  rcases run_cases c8input with ⟨t, hp, hr⟩ | ⟨t, hp, hr⟩
  · exact absurd hp (c8_no_success t)
  · exact hr

/-- C9 (confirmed): under duplicate-free givens the tracker invariant — every
filled cell's row/column/block flags set, and no two filled same-unit cells
sharing a value — holds of the initial state and is preserved by every
committed placement (a `checkValid` digit into an empty cell), by every
removal, by the whole logical pass, and by every terminating search call. -/

theorem C9_invariant_preserved (input : List (List Int))
    (hcons : NoDups (buildMat input)) :
    Inv (buildState input) ∧
    (∀ s i j v, Inv s → i < 9 → j < 9 → v ≠ 0 → v ≤ 9 →
      checkValid s i j v = true → getCell s.mat i j = 0 →
      Inv (assignCell s i j v)) ∧
    (∀ s i j, Inv s → i < 9 → j < 9 →
      Inv (unplaceCell s i j (getCell s.mat i j))) ∧
    (∀ s, Inv s → Inv (solveLogical s)) ∧
    (∀ fuel s i j t b, Inv s → i ≤ 9 → j ≤ 8 →
      solveBacktrackF fuel s i j = some (t, b) → Inv t) := by
  refine ⟨⟨buildState_good input, ?_⟩, ?_, ?_, ?_, ?_⟩
  · rw [buildState_mat]
    exact hcons
  · intro s i j v hInv hi hj hv0 hv9 hcv h0
    obtain ⟨hG, hD⟩ := hInv
    obtain ⟨hG', -, -⟩ := assignCell_props hG hi hj hv0 hv9 hcv h0
    obtain ⟨hE, hN⟩ := assignCell_step hG hi hj hv0 hv9 hcv h0
    exact ⟨hG', noDups_of hD hE hN⟩
  · intro s i j hInv hi hj
    obtain ⟨hG, hD⟩ := hInv
    exact unplaceCell_props hG hD hi hj
  · intro s hInv
    obtain ⟨hG, hD⟩ := hInv
    obtain ⟨hG', hE, hN⟩ := solveLogical_props hG
    exact ⟨hG', noDups_of hD hE hN⟩
  · intro fuel s i j t b hInv hi hj heq
    obtain ⟨hG, hD⟩ := hInv
    cases b
    · have ht : t = s := sb_restore fuel s i j t hG.1.1 hi hj heq
      rw [ht]
      exact ⟨hG, hD⟩
    · obtain ⟨hG', hE, hN, -⟩ := sb_sound fuel s i j t hG hi hj heq
      exact ⟨hG', noDups_of hD hE hN⟩

/-- Witness for C9: the duplicate-free input `winput` yields an initial state
satisfying the invariant. -/

theorem C9_invariant_preserved_witness :
    NoDups (buildMat winput) ∧ Inv (buildState winput) :=
  ⟨by decide, (C9_invariant_preserved winput (by decide)).1⟩

/-- C10 (confirmed): whenever a search call `solveBacktrack(i, j)` returns
false, the matrix and all three tag tables are bit-for-bit identical to
their state at the call's entry — every tentative placement made during the
call, including in nested recursive calls, was undone. -/

theorem C10_failure_restores (fuel : Nat) (s : SState) (i j : Nat) (t : SState)
    (hW : Wf2 s.mat) (hi : i ≤ 9) (hj : j ≤ 8)
    (h : solveBacktrackF fuel s i j = some (t, false)) : t = s :=
  sb_restore fuel s i j t hW hi hj h

/-- Witness for C10: the failing search on the unsolvable state `S5` returns
with the state it was entered with. -/

theorem C10_failure_restores_witness :
    Wf2 S5.mat ∧ (0 : Nat) ≤ 9 ∧ (0 : Nat) ≤ 8 ∧
      solveBacktrackF 100 S5 0 0 = some (S5, false) ∧ S5 = S5 :=
  ⟨by decide, by decide, by decide, s5_bt,
    C10_failure_restores 100 S5 0 0 S5 (by decide) (by decide) (by decide) s5_bt⟩

end Sudoku
